import Mathlib

/-!
Shallow embedding of `src/scripts/process_data.py` (backend-demo pipeline):
purchase curation, reconciliation against confirmed purchases, ROAS / anomaly
metrics and ARPDAU metrics, together with the fail-fast loading behaviour.

Modelling conventions:
* pandas dataframes become Lean lists of structures; a column that may be
  absent from the CSV is modelled by a `Bool` presence flag on the table
  (mirroring the `if "col" in df.columns` checks in the script);
* float64 revenue values are modelled as `ℚ`; the `revenue_usd` field of a
  raw row holds the value after the comma-to-dot normalisation and numeric
  coercion of lines 70-71 (unparseable cells coerce to 0);
* `pd.to_datetime(..., errors="coerce")` is modelled by `parseTs`, a strict
  parser for the canonical `YYYY-MM-DDTHH:MM:SSZ` form used by the data;
  any other string behaves as NaT (`none`);
* float division with `fillna(0.0)` is modelled by `PVal` (finite rational,
  plus or minus infinity, NaN) so that division by zero and by NaN keeps the
  IEEE semantics the script actually has.
-/

namespace ProcessData

/-- The `str.lower()` normalisation, character by character (the data in
scope is ASCII). -/
def lowerStr (s : String) : String :=
  String.mk (s.toList.map Char.toLower)

/-- The `str.upper()` normalisation, character by character. -/
def upperStr (s : String) : String :=
  String.mk (s.toList.map Char.toUpper)

/-- The `str.strip()` normalisation: drop whitespace from both ends. -/
def trimStr (s : String) : String :=
  String.mk (((s.toList.dropWhile Char.isWhitespace).reverse.dropWhile
    Char.isWhitespace).reverse)

/-- Lexicographic comparison of character lists, the code-point order Python
uses for `str` comparison and `sorted()`. -/
def charListLt : List Char → List Char → Bool
  | _, [] => false
  | [], _ :: _ => true
  | a :: as, b :: bs => decide (a < b) || (decide (a = b) && charListLt as bs)

/-- Strict string comparison by code points. -/
def strLt (a b : String) : Bool :=
  charListLt a.toList b.toList

/-- Non-strict string comparison by code points. -/
def strLe (a b : String) : Bool :=
  !strLt b a

/-- One digit of a timestamp; `none` when the character is not a digit. -/
def digitVal (c : Char) : Option ℕ :=
  if c.isDigit then some (c.toNat - 48) else none

/-- Days since 1970-01-01 of a civil date (proleptic Gregorian calendar),
for years ≥ 1 (the parser only accepts four-digit years). -/
def daysFromCivil (y m d : ℕ) : ℤ :=
  let y2 : ℕ := if m ≤ 2 then y - 1 else y
  let era : ℕ := y2 / 400
  let yoe : ℕ := y2 - era * 400
  let mp : ℕ := (m + 9) % 12
  let doy : ℕ := (153 * mp + 2) / 5 + d - 1
  let doe : ℕ := yoe * 365 + yoe / 4 - yoe / 100 + doy
  (era * 146097 + doe : ℤ) - 719468

/-- A parsed UTC timestamp: its `%Y-%m-%d` date string and its absolute
position in seconds. -/
structure Ts where
  date : String
  secs : ℤ
deriving DecidableEq

/-- Build a timestamp from parsed digit values, validating field ranges the
way `pd.to_datetime` rejects out-of-range components. -/
def mkTs (dateStr : String) (y mo da h mi s : ℕ) : Option Ts :=
  if 1 ≤ mo ∧ mo ≤ 12 ∧ 1 ≤ da ∧ da ≤ 31 ∧ h ≤ 23 ∧ mi ≤ 59 ∧ s ≤ 59 then
    some ⟨dateStr, daysFromCivil y mo da * 86400 + (h * 3600 + mi * 60 + s : ℕ)⟩
  else none

/-- Model of `pd.to_datetime(s, utc=True, errors="coerce")` restricted to the
canonical `YYYY-MM-DDTHH:MM:SSZ` form; every other string is NaT (`none`). -/
def parseTs (str : String) : Option Ts :=
  match str.toList with
  | [y1, y2, y3, y4, '-', m1, m2, '-', d1, d2, 'T', h1, h2, ':', n1, n2, ':', s1, s2, 'Z'] =>
    match digitVal y1, digitVal y2, digitVal y3, digitVal y4, digitVal m1, digitVal m2,
        digitVal d1, digitVal d2, digitVal h1, digitVal h2, digitVal n1, digitVal n2,
        digitVal s1, digitVal s2 with
    | some a1, some a2, some a3, some a4, some b1, some b2, some c1, some c2,
      some e1, some e2, some f1, some f2, some g1, some g2 =>
      mkTs (String.mk [y1, y2, y3, y4, '-', m1, m2, '-', d1, d2])
        (a1 * 1000 + a2 * 100 + a3 * 10 + a4) (b1 * 10 + b2) (c1 * 10 + c2)
        (e1 * 10 + e2) (f1 * 10 + f2) (g1 * 10 + g2)
    | _, _, _, _, _, _, _, _, _, _, _, _, _, _ => none
  | _ => none

/-- Raw purchase rows (`purchases_raw.csv`).  `revenue_usd` holds the value
after the comma normalisation and numeric coercion of lines 70-71;
`receipt_id` is `none` for an empty (NaN) cell. -/
structure RawRow where
  appsflyer_id : String
  event_time_utc : String
  event_name : String
  revenue_usd : ℚ
  campaign : String
  status : String
  receipt_id : Option String
deriving DecidableEq

/-- The purchases dataframe: rows plus presence flags for the columns the
script accesses conditionally or unconditionally. -/
structure PurchasesTable where
  hasAppsflyer : Bool
  hasEventTime : Bool
  hasEventName : Bool
  hasRevenue : Bool
  hasCampaign : Bool
  hasStatus : Bool
  hasReceiptId : Bool
  rows : List RawRow
deriving DecidableEq

/-- A curated purchase row: the raw fields after campaign trimming plus the
added `campaign_norm` column (lines 72-73). -/
structure CuratedRow where
  appsflyer_id : String
  event_time_utc : String
  event_name : String
  revenue_usd : ℚ
  campaign : String
  status : String
  receipt_id : Option String
  campaign_norm : String
deriving DecidableEq

/-- Lines 72-73: strip the campaign and add its upper-cased normal form. -/
def normalizeRow (r : RawRow) : CuratedRow :=
  ⟨r.appsflyer_id, r.event_time_utc, r.event_name, r.revenue_usd,
    trimStr r.campaign, r.status, r.receipt_id, upperStr (trimStr r.campaign)⟩

/-- Lines 76-80: keep success/purchase rows with positive revenue; the status
and event-name filters only run when the column exists. -/
def filteredRows (t : PurchasesTable) : List CuratedRow :=
  (t.rows.map normalizeRow).filter fun r =>
    (!t.hasStatus || lowerStr r.status == "success")
      && (!t.hasEventName || lowerStr r.event_name == "purchase")
      && decide (0 < r.revenue_usd)

/-- Lines 82-84: the composite deduplication key, the pipe-joined identity,
timestamp, event name and revenue rendering. -/
def composite (r : CuratedRow) : String :=
  r.appsflyer_id ++ "|" ++ r.event_time_utc ++ "|" ++ r.event_name ++ "|"
    ++ toString r.revenue_usd

/-- Comparison used by `sort_values(["event_time_utc"])`. -/
def tsLe (a b : CuratedRow) : Bool :=
  strLe a.event_time_utc b.event_time_utc

/-- Contract of `sort_values(["event_time_utc"])` on line 85: the output is
some permutation of the input ordered by the timestamp string. The pandas
default kind "quicksort" is not stable, so the relative order of rows with
equal timestamps is not specified beyond this. -/
def IsTsSorted (s l : List CuratedRow) : Prop :=
  s.Perm l ∧ List.Pairwise (fun x y => tsLe x y = true) s

instance (s l : List CuratedRow) : Decidable (IsTsSorted s l) :=
  inferInstanceAs (Decidable (s.Perm l ∧ List.Pairwise (fun x y => tsLe x y = true) s))

/-- Helper for `drop_duplicates(keep="first")`: drop rows whose key has
already been seen. -/
def dedupKeysAux {α : Type} (key : α → String) : List String → List α → List α
  | _, [] => []
  | seen, x :: xs =>
    if key x ∈ seen then dedupKeysAux key seen xs
    else x :: dedupKeysAux key (key x :: seen) xs

/-- `drop_duplicates(subset=["composite"], keep="first")`. -/
def dedupKeys {α : Type} (key : α → String) (l : List α) : List α :=
  dedupKeysAux key [] l

/-- Line 85: sort by timestamp string, then drop duplicate composite keys
keeping the first occurrence. The program's sort guarantees only
`IsTsSorted` (its default quicksort is unstable, so the order of rows with
equal timestamps is unspecified); this executable stage fixes that
unspecified tie order with a stable merge sort, one admissible outcome. -/
def dedupStage (l : List CuratedRow) : List CuratedRow :=
  dedupKeys composite (l.mergeSort tsLe)

/-- `astype(str)` on a possibly-NaN cell: a missing value prints as "nan". -/
def strOfOpt : Option String → String
  | none => "nan"
  | some s => s

/-- Lines 90-91: receipt ids of chargeback-status rows of the original
unfiltered raw batch, as the strings pandas compares. -/
def chargebackSet (t : PurchasesTable) : List String :=
  ((t.rows.map normalizeRow).filter fun r => lowerStr r.status == "chargeback").map
    fun r => strOfOpt r.receipt_id

/-- Line 92: zero out the revenue of curated rows whose receipt id string is
in the chargeback set; only runs when both guard columns exist (line 89). -/
def zeroStage (t : PurchasesTable) (l : List CuratedRow) : List CuratedRow :=
  if t.hasReceiptId && t.hasStatus then
    l.map fun r =>
      if strOfOpt r.receipt_id ∈ chargebackSet t then
        { r with revenue_usd := 0 }
      else r
  else l

/-- Pipeline error causes, mirroring the distinct log messages of the
script's exception handlers. -/
inductive PErr
  | fileMissing (path : String)
  | fileEmpty (path : String)
  | fileUnparseable (path : String)
  | missingColumn (stage col : String)
  | dupD1Campaign (campaign : String)
deriving DecidableEq

deriving instance DecidableEq for Except

/-- Lines 67-104: the curation stage.  Column accesses happen in source
order, so a missing required column aborts with a missing-column error
before the curated artifact is written; `status`, `event_name` and
`receipt_id` are only accessed behind presence guards, but `event_name` is
also needed unconditionally by the composite key (line 83). -/
def curate (t : PurchasesTable) : Except PErr (List CuratedRow) :=
  if !t.hasRevenue then .error (.missingColumn "purchases" "revenue_usd")
  else if !t.hasCampaign then .error (.missingColumn "purchases" "campaign")
  else if !t.hasAppsflyer then .error (.missingColumn "purchases" "appsflyer_id")
  else if !t.hasEventTime then .error (.missingColumn "purchases" "event_time_utc")
  else if !t.hasEventName then .error (.missingColumn "purchases" "event_name")
  else .ok (zeroStage t (dedupStage (filteredRows t)))

/-- Confirmed purchase rows (`confirmed_purchases.csv`). -/
structure ConfirmedRow where
  appsflyer_id : String
  event_time_utc : String
  revenue_usd : ℚ
deriving DecidableEq

/-- The confirmed dataframe with presence flags for its required columns. -/
structure ConfirmedTable where
  hasAppsflyer : Bool
  hasEventTime : Bool
  hasRevenue : Bool
  rows : List ConfirmedRow
deriving DecidableEq

/-- A reconciliation detail record.  `matched` also carries the dataframe
index of the claimed confirmed row (the script's `c_idx`, line 149). -/
inductive Detail
  | matched (af afTime cfTime : String) (rev : ℚ) (cIdx : ℕ)
  | afOnly (af time : String) (rev : ℚ)
  | confirmedOnly (af time : String) (rev : ℚ)
deriving DecidableEq

/-- The confirmed index a matched detail claimed, if any. -/
def Detail.claimedIdx : Detail → Option ℕ
  | .matched _ _ _ _ i => some i
  | _ => none

/-- Whether a detail is of type `matched`. -/
def Detail.isMatched : Detail → Bool
  | .matched _ _ _ _ _ => true
  | _ => false

/-- Whether a detail is of type `af_only`. -/
def Detail.isAfOnly : Detail → Bool
  | .afOnly _ _ _ => true
  | _ => false

/-- Whether a detail is of type `confirmed_only`. -/
def Detail.isConfirmedOnly : Detail → Bool
  | .confirmedOnly _ _ _ => true
  | _ => false

/-- First occurrence of the minimal distance, as `Series.idxmin` returns the
first index achieving the minimum. -/
def minFirst : List (ℕ × String × ℕ) → Option (ℕ × String × ℕ)
  | [] => none
  | x :: xs =>
    match minFirst xs with
    | none => some x
    | some y => if y.2.2 < x.2.2 then some y else some x

/-- Lines 141-142: the absolute time distances of one curated timestamp to
the confirmed rows of its identity group; NaT timestamps produce no
candidate (they are skipped by the minimum). -/
def candList (tp : Ts) (cg : List (ℕ × ConfirmedRow)) : List (ℕ × String × ℕ) :=
  cg.filterMap fun ic =>
    (parseTs ic.2.event_time_utc).map fun tc =>
      (ic.1, ic.2.event_time_utc, (tc.secs - tp.secs).natAbs)

/-- Classification of one curated row against the indexed confirmed rows of
its identity group, continued: pick the first nearest candidate and compare
against the 10-minute tolerance. -/
def classify (p : CuratedRow) (cg : List (ℕ × ConfirmedRow)) : Detail :=
  match parseTs p.event_time_utc with
  | none => .afOnly p.appsflyer_id p.event_time_utc p.revenue_usd
  | some tp =>
    match minFirst (candList tp cg) with
    | none => .afOnly p.appsflyer_id p.event_time_utc p.revenue_usd
    | some (i, ct, d) =>
      if 600 < d then .afOnly p.appsflyer_id p.event_time_utc p.revenue_usd
      else .matched p.appsflyer_id p.event_time_utc ct p.revenue_usd i

/-- First-appearance distinct values, as `Series.unique` preserves the order
of first appearance. -/
def uniqueStrs (l : List String) : List String :=
  dedupKeys id l

/-- The curated-side details of a reconciliation run: iterate identity
groups in order of first appearance (line 127) and classify each curated row
of the group in dataframe order. -/
def curatedDetails (cur : List CuratedRow) (conf : List ConfirmedRow) : List Detail :=
  (uniqueStrs (cur.map (·.appsflyer_id))).flatMap fun af =>
    (cur.filter fun p => p.appsflyer_id = af).map fun p =>
      classify p ((conf.enum.filter fun ic => ic.2.appsflyer_id = af))

/-- The indices of confirmed rows claimed by matched details (the script's
`matched_c_indices`, except kept as a list with multiplicity). -/
def claimedOf (details : List Detail) : List ℕ :=
  details.filterMap Detail.claimedIdx

/-- Reconciliation summary counts (lines 161-165). -/
structure Summary where
  matched : ℕ
  af_only : ℕ
  confirmed_only : ℕ
deriving DecidableEq

/-- The reconciliation report: summary plus detail list. -/
structure ReconReport where
  summary : Summary
  details : List Detail
deriving DecidableEq

/-- Lines 106-178: the reconciliation stage.  `event_time_utc` is read from
confirmed at line 110 and the identity grouping at line 124, so those
columns abort before anything of this stage is produced; `revenue_usd` of
confirmed is only read when an unmatched confirmed row is reached in the
confirmed-only loop (line 159). -/
def reconcileStage (cur : List CuratedRow) (ct : ConfirmedTable) :
    Except PErr ReconReport :=
  if !ct.hasEventTime then .error (.missingColumn "reconciliation" "event_time_utc")
  else if !ct.hasAppsflyer then .error (.missingColumn "reconciliation" "appsflyer_id")
  else
    let dets := curatedDetails cur ct.rows
    let unmatched := ct.rows.enum.filter fun ic => ic.1 ∉ claimedOf dets
    if !ct.hasRevenue && !unmatched.isEmpty then
      .error (.missingColumn "reconciliation" "revenue_usd")
    else
      let all := dets ++ unmatched.map fun ic =>
        Detail.confirmedOnly ic.2.appsflyer_id ic.2.event_time_utc ic.2.revenue_usd
      .ok ⟨⟨(all.filter Detail.isMatched).length, (all.filter Detail.isAfOnly).length,
        (all.filter Detail.isConfirmedOnly).length⟩, all⟩

/-- A pandas float value: finite rational, signed infinity, or NaN. -/
inductive PVal
  | num (q : ℚ)
  | posInf
  | negInf
  | nan
deriving DecidableEq

/-- Float division of a finite numerator by a possibly-missing denominator
(the elementwise semantics of `df["a"] / df["b"]`). -/
def pdiv (r : ℚ) (c : Option ℚ) : PVal :=
  match c with
  | none => .nan
  | some c =>
    if c = 0 then
      if 0 < r then .posInf else if r < 0 then .negInf else .nan
    else .num (r / c)

/-- `fillna(0.0)`: replace NaN by 0, keep everything else. -/
def fillna0 : PVal → PVal
  | .nan => .num 0
  | v => v

/-- Float addition on `PVal`. -/
def padd : PVal → PVal → PVal
  | .nan, _ => .nan
  | _, .nan => .nan
  | .posInf, .negInf => .nan
  | .negInf, .posInf => .nan
  | .posInf, _ => .posInf
  | _, .posInf => .posInf
  | .negInf, _ => .negInf
  | _, .negInf => .negInf
  | .num a, .num b => .num (a + b)

/-- Float division by a (positive) count, used by `Series.mean`. -/
def pdivNat (v : PVal) (n : ℕ) : PVal :=
  match v with
  | .num q => if n = 0 then (if 0 < q then .posInf else if q < 0 then .negInf else .nan)
      else .num (q / n)
  | .posInf => .posInf
  | .negInf => .negInf
  | .nan => .nan

/-- `Series.mean` over a column without NaNs: sum divided by length. -/
def pmean (l : List PVal) : PVal :=
  pdivNat (l.foldl padd (.num 0)) l.length

/-- The comparison `v > 0` on a pandas float (False for NaN). -/
def pgt0 : PVal → Bool
  | .num q => decide (0 < q)
  | .posInf => true
  | .negInf => false
  | .nan => false

/-- Multiplication by 0.5 on a pandas float. -/
def phalf : PVal → PVal
  | .num q => .num (q / 2)
  | .posInf => .posInf
  | .negInf => .negInf
  | .nan => .nan

/-- The comparison `a < b` on pandas floats (False when either is NaN). -/
def plt : PVal → PVal → Bool
  | .nan, _ => false
  | _, .nan => false
  | .num a, .num b => decide (a < b)
  | .num _, .posInf => true
  | .num _, .negInf => false
  | .posInf, _ => false
  | .negInf, .negInf => false
  | .negInf, _ => true

/-- A daily ad-cost row (`costs_daily.csv`); a missing cost cell is `none`. -/
structure CostRow where
  date : String
  campaign : String
  ad_cost_usd : Option ℚ
deriving DecidableEq

/-- The costs dataframe with presence flags for its required columns. -/
structure CostsTable where
  hasDate : Bool
  hasCampaign : Bool
  hasCost : Bool
  rows : List CostRow
deriving DecidableEq

/-- A session row (`sessions.csv`). -/
structure SessionRow where
  event_timestamp_utc : String
  user_id : String
deriving DecidableEq

/-- The sessions dataframe with presence flags for its required columns. -/
structure SessionsTable where
  hasTs : Bool
  hasUser : Bool
  rows : List SessionRow
deriving DecidableEq

/-- One row of the revenue-by-day aggregate (`rev_daily`, line 184). -/
structure RevRow where
  date : String
  campaign : String
  revenue_usd : ℚ
deriving DecidableEq

/-- One row of the cost-joined ROAS table (line 188-189). -/
structure RoasRow where
  date : String
  campaign : String
  revenue_usd : ℚ
  ad_cost_usd : Option ℚ
  roas : PVal
deriving DecidableEq

/-- One anomaly record (line 220). -/
structure Anomaly where
  date : String
  campaign : String
  roas_d1 : PVal
  avg7 : PVal
  anomaly : Bool
deriving DecidableEq

/-- One row of the DAU-joined ARPDAU table (lines 260-261). -/
structure ArpdauRow where
  date : String
  campaign : String
  revenue : ℚ
  dau : Option ℕ
  arpdau : PVal
deriving DecidableEq

/-- Lexicographic comparison on (date, campaign) pairs, the key order
`groupby(..., sort=True)` produces. -/
def pairLe (a b : String × String) : Bool :=
  strLt a.1 b.1 || (decide (a.1 = b.1) && strLe a.2 b.2)

/-- Distinct values of a string list, sorted ascending (`sorted(s.unique())`). -/
def sortedDistinct (l : List String) : List String :=
  (dedupKeys id l).mergeSort strLe

/-- Line 183: tag each curated row with its `%Y-%m-%d` date; rows whose
timestamp is NaT get a NaN date and are dropped by the groupby. -/
def datedRows (cur : List CuratedRow) : List (String × String × ℚ) :=
  cur.filterMap fun r =>
    (parseTs r.event_time_utc).map fun t => (t.date, r.campaign_norm, r.revenue_usd)

/-- Line 184: revenue summed by (date, campaign_norm), keys sorted as
`groupby` sorts them. -/
def revDaily (cur : List CuratedRow) : List RevRow :=
  let tagged := datedRows cur
  ((dedupKeys (fun p => p.1 ++ "|" ++ p.2) (tagged.map fun x => (x.1, x.2.1))).mergeSort
      pairLe).map fun k =>
    ⟨k.1, k.2, ((tagged.filter fun x => x.1 = k.1 ∧ x.2.1 = k.2).map
      fun x => x.2.2).sum⟩

/-- Line 187: normalisation applied to the costs campaign column. -/
def normCostCampaign (s : String) : String :=
  trimStr (upperStr s)

/-- Lines 188-189: left-join the revenue aggregate against costs on
(date, campaign) and divide, with `fillna(0.0)` on the ratio. -/
def roasTable (rev : List RevRow) (cost : List CostRow) : List RoasRow :=
  rev.flatMap fun r =>
    match cost.filter fun c => c.date = r.date ∧ normCostCampaign c.campaign = r.campaign with
    | [] => [⟨r.date, r.campaign, r.revenue_usd, none, fillna0 (pdiv r.revenue_usd none)⟩]
    | ms => ms.map fun c =>
        ⟨r.date, r.campaign, r.revenue_usd, c.ad_cost_usd,
          fillna0 (pdiv r.revenue_usd c.ad_cost_usd)⟩

/-- Lines 197-198 and 269-270: D-1 is the second-most-recent distinct date,
or the only date when exactly one exists; `none` on an empty list. -/
def selectD1 (dates : List String) : Option String :=
  let ds := sortedDistinct dates
  if ds.isEmpty then none else some (ds.getD (ds.length - 2) "")

/-- The anomaly flag of line 220: `(val < 0.5 * avg7) if avg7 > 0 else False`. -/
def anomalyFlag (val avg7 : PVal) : Bool :=
  if pgt0 avg7 then plt val (phalf avg7) else false

/-- Lines 212-216: the trailing window mean for one campaign, over the rows
at the last up-to-7 distinct dates of its history at or before D-1. -/
def avg7Of (hist : List RoasRow) (camp : String) : PVal :=
  let campHist := hist.filter fun r => r.campaign = camp
  let histDates := sortedDistinct (campHist.map (·.date))
  let last7 := histDates.drop (histDates.length - 7)
  let rows := campHist.filter fun r => r.date ∈ last7
  if rows.isEmpty then .num 0 else pmean (rows.map (·.roas))

/-- Lines 208-220: the loop body for one campaign.  `none` when the campaign
has no history at or before D-1 or no D-1 row; an error when the D-1 table
holds several rows for the campaign (then `float(...)` raises). -/
def perCampaign (hist tblD1 : List RoasRow) (d1 camp : String) :
    Except PErr (Option Anomaly) :=
  if (hist.filter fun r => r.campaign = camp).isEmpty then .ok none
  else
    match tblD1.filter fun r => r.campaign = camp with
    | [] => .ok none
    | [r] => .ok (some ⟨d1, camp, r.roas, avg7Of hist camp,
        anomalyFlag r.roas (avg7Of hist camp)⟩)
    | _ => .error (.dupD1Campaign camp)

/-- The anomaly loop over the campaign list, in iteration order. -/
def anomalyLoop (hist tblD1 : List RoasRow) (d1 : String) :
    List String → Except PErr (List Anomaly)
  | [] => .ok []
  | camp :: rest =>
    match perCampaign hist tblD1 d1 camp with
    | .error e => .error e
    | .ok none => anomalyLoop hist tblD1 d1 rest
    | .ok (some a) => (anomalyLoop hist tblD1 d1 rest).map fun as => a :: as

/-- Lines 180-244: the ROAS stage.  Returns the D-1 subset and the anomaly
list; empty revenue data yields empty outputs (the script writes literal
empty arrays). -/
def roasStage (cur : List CuratedRow) (ct : CostsTable) :
    Except PErr (List RoasRow × List Anomaly) :=
  if !ct.hasCampaign then .error (.missingColumn "roas" "campaign")
  else if !ct.hasDate then .error (.missingColumn "roas" "date")
  else if !ct.hasCost then .error (.missingColumn "roas" "ad_cost_usd")
  else
    let tbl := roasTable (revDaily cur) ct.rows
    if tbl.isEmpty then .ok ([], [])
    else
      let d1 := (selectD1 (tbl.map (·.date))).getD ""
      let tblD1 := tbl.filter fun r => r.date = d1
      let hist := tbl.filter fun r => strLe r.date d1
      (anomalyLoop hist tblD1 d1 (uniqueStrs (tbl.map (·.campaign)))).map
        fun as => (tblD1, as)

/-- Line 249: sessions tagged with their `%Y-%m-%d` date; NaT rows are
dropped by the date groupby. -/
def sessionDates (srows : List SessionRow) : List (String × String) :=
  srows.filterMap fun s =>
    (parseTs s.event_timestamp_utc).map fun t => (t.date, s.user_id)

/-- Line 256: daily active users, the distinct user count per present date. -/
def dauTable (srows : List SessionRow) : List (String × ℕ) :=
  (sortedDistinct ((sessionDates srows).map (·.1))).map fun d =>
    (d, (((sessionDates srows).filter fun x => x.1 = d).map (·.2)).dedup.length)

/-- Lines 260-261: left-join revenue-by-day against DAU on date only and
divide, with `fillna(0.0)` on the ratio. -/
def arpdauTable (srows : List SessionRow) (rev : List RevRow) : List ArpdauRow :=
  rev.flatMap fun r =>
    match (dauTable srows).filter fun x => x.1 = r.date with
    | [] => [⟨r.date, r.campaign, r.revenue_usd, none, fillna0 (pdiv r.revenue_usd none)⟩]
    | ms => ms.map fun x =>
        ⟨r.date, r.campaign, r.revenue_usd, some x.2,
          fillna0 (pdiv r.revenue_usd (some (x.2 : ℚ)))⟩

/-- Lines 246-288: the ARPDAU stage, returning the D-1 subset. -/
def arpdauStage (st : SessionsTable) (rev : List RevRow) :
    Except PErr (List ArpdauRow) :=
  if !st.hasTs then .error (.missingColumn "arpdau" "event_timestamp_utc")
  else if !st.hasUser then .error (.missingColumn "arpdau" "user_id")
  else
    let tbl := arpdauTable st.rows rev
    if tbl.isEmpty then .ok []
    else .ok (tbl.filter fun r => r.date = (selectD1 (tbl.map (·.date))).getD "")

/-- The on-disk state of one input CSV file. -/
inductive FileState (α : Type)
  | missing
  | empty
  | unparseable
  | ok (table : α)
deriving DecidableEq

/-- The four input files of one pipeline run. -/
structure Inputs where
  purchasesFile : FileState PurchasesTable
  confirmedFile : FileState ConfirmedTable
  costsFile : FileState CostsTable
  sessionsFile : FileState SessionsTable
deriving DecidableEq

/-- Outcome of reading one file (lines 42-52): an empty file raises
EmptyDataError, a malformed one ParserError. -/
def readFile {α : Type} (path : String) : FileState α → Except PErr α
  | .missing => .error (.fileMissing path)
  | .empty => .error (.fileEmpty path)
  | .unparseable => .error (.fileUnparseable path)
  | .ok t => .ok t

/-- Lines 30-65: existence checks for all four files in order, then the four
reads in order; the first failure aborts before any output is written. -/
def load (inp : Inputs) :
    Except PErr (PurchasesTable × ConfirmedTable × CostsTable × SessionsTable) :=
  if inp.purchasesFile = .missing then .error (.fileMissing "purchases_raw.csv")
  else if inp.confirmedFile = .missing then .error (.fileMissing "confirmed_purchases.csv")
  else if inp.costsFile = .missing then .error (.fileMissing "costs_daily.csv")
  else if inp.sessionsFile = .missing then .error (.fileMissing "sessions.csv")
  else do
    let pt ← readFile "purchases_raw.csv" inp.purchasesFile
    let ct ← readFile "confirmed_purchases.csv" inp.confirmedFile
    let cost ← readFile "costs_daily.csv" inp.costsFile
    let sess ← readFile "sessions.csv" inp.sessionsFile
    .ok (pt, ct, cost, sess)

/-- The observable outcome of one pipeline run: exit code, the diagnosed
error, the artifacts in write order, and their contents. -/
structure RunResult where
  exitCode : ℕ
  error : Option PErr
  written : List String
  curated : Option (List CuratedRow)
  recon : Option ReconReport
  roasD1 : Option (List RoasRow)
  anomalies : Option (List Anomaly)
  arpdauD1 : Option (List ArpdauRow)
deriving DecidableEq

/-- The whole script as one function from inputs to observable outcome.
Each stage writes its artifacts before the next stage runs, so a failing
stage leaves the artifacts of completed stages in place. -/
def runPipeline (inp : Inputs) : RunResult :=
  match load inp with
  | .error e => ⟨1, some e, [], none, none, none, none, none⟩
  | .ok (pt, ct, cost, sess) =>
    match curate pt with
    | .error e => ⟨1, some e, [], none, none, none, none, none⟩
    | .ok curRows =>
      match reconcileStage curRows ct with
      | .error e => ⟨1, some e, ["purchases_curated.csv"], some curRows,
          none, none, none, none⟩
      | .ok rep =>
        match roasStage curRows cost with
        | .error e => ⟨1, some e, ["purchases_curated.csv", "reconciliation.json"],
            some curRows, some rep, none, none, none⟩
        | .ok (rd1, anoms) =>
          match arpdauStage sess (revDaily curRows) with
          | .error e => ⟨1, some e,
              ["purchases_curated.csv", "reconciliation.json", "roas_d1.json",
                "roas_anomaly.json"], some curRows, some rep, some rd1, some anoms, none⟩
          | .ok ad1 => ⟨0, none,
              ["purchases_curated.csv", "reconciliation.json", "roas_d1.json",
                "roas_anomaly.json", "arpdau_d1.json"],
              some curRows, some rep, some rd1, some anoms, some ad1⟩

/-- The DAU value joined onto a revenue row: the unique `dauTable` entry for
its date, if the date has sessions. -/
def dauOf (srows : List SessionRow) (d : String) : Option ℕ :=
  match (dauTable srows).filter fun x => decide (x.1 = d) with
  | [] => none
  | x :: _ => some x.2

/-- One ARPDAU row per revenue row: the (date, campaign) grain of the
revenue aggregate with the date-level DAU joined on. -/
def addDau (srows : List SessionRow) (r : RevRow) : ArpdauRow :=
  ⟨r.date, r.campaign, r.revenue_usd, dauOf srows r.date,
    fillna0 (pdiv r.revenue_usd ((dauOf srows r.date).map fun n => (n : ℚ)))⟩

/-! Concrete example data used by witnesses and counterexamples. -/

/-- A success purchase row used by concrete runs. -/
def exRaw (ts camp : String) (rev : ℚ) : RawRow :=
  ⟨"af1", ts, "purchase", rev, camp, "success", some "r1"⟩

/-- A complete purchases table with two purchases on consecutive days. -/
def exPt : PurchasesTable :=
  ⟨true, true, true, true, true, true, true,
    [exRaw "2025-10-19T08:00:00Z" "A" 20, exRaw "2025-10-20T09:00:00Z" "A" 30]⟩

/-- A confirmed table whose single row is one minute from the first purchase. -/
def exCt : ConfirmedTable :=
  ⟨true, true, true, [⟨"af1", "2025-10-19T08:01:00Z", 20⟩]⟩

/-- A costs table covering both dates of `exPt`. -/
def exCost : CostsTable :=
  ⟨true, true, true, [⟨"2025-10-19", "A", some 100⟩, ⟨"2025-10-20", "A", some 100⟩]⟩

/-- A sessions table with two users on the first date and one on the second. -/
def exSess : SessionsTable :=
  ⟨true, true, [⟨"2025-10-19T01:00:00Z", "u1"⟩, ⟨"2025-10-19T02:00:00Z", "u2"⟩,
    ⟨"2025-10-20T03:00:00Z", "u1"⟩]⟩

/-- A fully well-formed input quadruple. -/
def exInputs : Inputs :=
  ⟨.ok exPt, .ok exCt, .ok exCost, .ok exSess⟩

/-- A purchases table with a success purchase whose receipt id is missing
and a chargeback row whose receipt id is also missing. -/
def exPtCb : PurchasesTable :=
  ⟨true, true, true, true, true, true, true,
    [⟨"af1", "2025-10-19T08:00:00Z", "purchase", 10, "A", "success", none⟩,
      ⟨"af2", "x", "refund", 5, "B", "chargeback", none⟩]⟩

/-- The single curated row of `exPtCb`: retained but zeroed, since its
missing receipt id renders as "nan" like the chargeback row's. -/
def exCuratedCb : CuratedRow :=
  ⟨"af1", "2025-10-19T08:00:00Z", "purchase", 0, "A", "success", none, "A"⟩

/-- A purchases table whose `status` column is absent. -/
def exPtNoStatus : PurchasesTable :=
  ⟨true, true, true, true, true, false, false, []⟩

/-- Inputs with all files present but no `status` column in purchases. -/
def exInputsNoStatus : Inputs :=
  ⟨.ok exPtNoStatus, .ok ⟨true, true, true, []⟩, .ok ⟨true, true, true, []⟩,
    .ok ⟨true, true, []⟩⟩

/-- Inputs whose confirmed table lacks the `event_time_utc` column. -/
def exInputsNoConfTime : Inputs :=
  ⟨.ok ⟨true, true, true, true, true, true, true, []⟩, .ok ⟨true, false, true, []⟩,
    .ok ⟨true, true, true, []⟩, .ok ⟨true, true, []⟩⟩

/-- The roas dataframe of line 188: costs joined onto the revenue-by-day
aggregate of the curated purchases. -/
def roasFull (cur : List CuratedRow) (ct : CostsTable) : List RoasRow :=
  roasTable (revDaily cur) ct.rows

/-- The D-1 date string of line 198 (empty only on an empty table). -/
def roasD1Date (cur : List CuratedRow) (ct : CostsTable) : String :=
  (selectD1 ((roasFull cur ct).map (·.date))).getD ""

/-- The `hist_data` frame of line 204: roas rows at or before D-1. -/
def roasHist (cur : List CuratedRow) (ct : CostsTable) : List RoasRow :=
  (roasFull cur ct).filter fun r => strLe r.date (roasD1Date cur ct)

/-- Two curated purchases one minute apart sharing one identity. -/
def exCur2 : List CuratedRow :=
  [⟨"af_001", "2025-10-20T08:00:00Z", "purchase", 10, "A", "success", none, "A"⟩,
    ⟨"af_001", "2025-10-20T08:01:00Z", "purchase", 10, "A", "success", none, "A"⟩]

/-- A confirmed table with a single row between the two purchases. -/
def exCt2 : ConfirmedTable :=
  ⟨true, true, true, [⟨"af_001", "2025-10-20T08:00:30Z", 10⟩]⟩

/-- The reconciliation report of `exCur2` against `exCt2`: both purchases
claim confirmed index 0. -/
def exRep : ReconReport :=
  ⟨⟨2, 0, 0⟩,
    [.matched "af_001" "2025-10-20T08:00:00Z" "2025-10-20T08:00:30Z" 10 0,
      .matched "af_001" "2025-10-20T08:01:00Z" "2025-10-20T08:00:30Z" 10 0]⟩

/-- Two filtered rows sharing one composite key but different campaigns. -/
def exDup : List CuratedRow :=
  [⟨"af1", "2025-10-20T08:00:00Z", "purchase", 10, "A", "success", none, "A"⟩,
    ⟨"af1", "2025-10-20T08:00:00Z", "purchase", 10, "B", "success", none, "B"⟩]

/-- The shared composite key of the rows of `exDup`. -/
def exKey : String :=
  "af1|2025-10-20T08:00:00Z|purchase|10"

/-- A single curated purchase row used by the classification witness. -/
def exP : CuratedRow :=
  ⟨"af_001", "2025-10-20T08:00:00Z", "purchase", 10, "A", "success", none, "A"⟩

/-- One confirmed row thirty seconds after `exP`. -/
def exConf : List ConfirmedRow :=
  [⟨"af_001", "2025-10-20T08:00:30Z", 10⟩]

/-- A confirmed table whose single row matches no curated purchase. -/
def exCtSolo : ConfirmedTable :=
  ⟨true, true, true, [⟨"af9", "2025-10-20T10:00:00Z", 5⟩]⟩

/-- The report of reconciling nothing against `exCtSolo`: one
`confirmed_only` record. -/
def exRepSolo : ReconReport :=
  ⟨⟨0, 0, 1⟩, [.confirmedOnly "af9" "2025-10-20T10:00:00Z" 5]⟩

/-- A one-row revenue aggregate with revenue 20. -/
def exRev20 : List RevRow :=
  [⟨"2025-10-20", "C", 20⟩]

/-- A matching cost row with ad cost 100. -/
def exCost100 : List CostRow :=
  [⟨"2025-10-20", "C", some 100⟩]

/-- Two sessions by distinct users on the revenue date. -/
def exSess2 : List SessionRow :=
  [⟨"2025-10-20T01:00:00Z", "u1"⟩, ⟨"2025-10-20T02:00:00Z", "u2"⟩]

/-- Two curated purchases on consecutive dates for the ROAS witness. -/
def exCur3 : List CuratedRow :=
  [⟨"af1", "2025-10-19T08:00:00Z", "purchase", 20, "A", "success", none, "A"⟩,
    ⟨"af1", "2025-10-20T09:00:00Z", "purchase", 30, "A", "success", none, "A"⟩]

/-- The D-1 subset of the ROAS table of `exCur3` against `exCost`. -/
def exTbl : List RoasRow :=
  [⟨"2025-10-19", "A", 20, some 100, PVal.num (1 / 5)⟩]

/-- The anomaly list of the `exCur3` run: one unflagged record. -/
def exAnoms : List Anomaly :=
  [⟨"2025-10-19", "A", PVal.num (1 / 5), PVal.num (1 / 5), false⟩]

/-- Inputs whose purchases file is absent. -/
def exInputsMissing : Inputs :=
  ⟨.missing, .ok ⟨true, true, true, []⟩, .ok ⟨true, true, true, []⟩, .ok ⟨true, true, []⟩⟩

/-- A purchases table lacking the `campaign` column. -/
def exPtNoCamp : PurchasesTable :=
  ⟨true, true, true, true, false, true, true, []⟩

/-- Inputs carrying `exPtNoCamp`. -/
def exInputsNoCamp : Inputs :=
  ⟨.ok exPtNoCamp, .ok ⟨true, true, true, []⟩, .ok ⟨true, true, true, []⟩,
    .ok ⟨true, true, []⟩⟩

/-! Theorems.  First, helper lemmas shared by the claim theorems. -/

theorem mem_of_mem_dedupKeysAux {α : Type} {key : α → String} :
    ∀ {seen : List String} {l : List α} {x : α}, x ∈ dedupKeysAux key seen l → x ∈ l := by
  intro seen l
  induction l generalizing seen with
  | nil => intro x h; simp [dedupKeysAux] at h
  | cons y ys ih =>
    intro x h
    simp only [dedupKeysAux] at h
    by_cases hy : key y ∈ seen
    · simp [hy] at h
      exact List.mem_cons_of_mem _ (ih h)
    · simp [hy] at h
      rcases h with h | h
      · exact h ▸ List.mem_cons_self _ _
      · exact List.mem_cons_of_mem _ (ih h)

theorem mem_of_mem_dedupKeys {α : Type} {key : α → String} {l : List α} {x : α}
    (h : x ∈ dedupKeys key l) : x ∈ l :=
  mem_of_mem_dedupKeysAux h

theorem mem_of_mem_dedupStage {l : List CuratedRow} {x : CuratedRow}
    (h : x ∈ dedupStage l) : x ∈ l :=
  (List.mergeSort_perm l tsLe).mem_iff.mp (mem_of_mem_dedupKeys h)

theorem filteredRows_pos {t : PurchasesTable} {r : CuratedRow}
    (h : r ∈ filteredRows t) : 0 < r.revenue_usd := by
  have := (List.mem_filter.mp h).2
  simp only [Bool.and_eq_true, decide_eq_true_eq] at this
  exact this.2

theorem curate_ok_iff {t : PurchasesTable} {out : List CuratedRow} :
    curate t = .ok out ↔
      t.hasRevenue = true ∧ t.hasCampaign = true ∧ t.hasAppsflyer = true
        ∧ t.hasEventTime = true ∧ t.hasEventName = true
        ∧ out = zeroStage t (dedupStage (filteredRows t)) := by
  cases hR : t.hasRevenue <;> cases hC : t.hasCampaign <;> cases hA : t.hasAppsflyer
    <;> cases hE : t.hasEventTime <;> cases hN : t.hasEventName
    <;> simp [curate, hR, hC, hA, hE, hN, eq_comm]

/-- C10: when the chargeback batch contains a row with a missing receipt id,
every curated row with a missing receipt id is zeroed, because both missing
values render as the string "nan" before the membership test. -/
theorem missing_receipt_cross_match (t : PurchasesTable)
    (hrec : t.hasReceiptId = true) (hstat : t.hasStatus = true)
    (hcb : ∃ r ∈ t.rows, lowerStr r.status = "chargeback" ∧ r.receipt_id = none)
    (out : List CuratedRow) (hout : curate t = .ok out) :
    ∀ c ∈ out, c.receipt_id = none → c.revenue_usd = 0 := by
  intro c hc hcnone
  obtain ⟨r, hr, hrstat, hrnone⟩ := hcb
  have hnan : "nan" ∈ chargebackSet t := by
    refine List.mem_map.mpr ⟨normalizeRow r, List.mem_filter.mpr ⟨List.mem_map.mpr ⟨r, hr, rfl⟩, ?_⟩, ?_⟩
    · simp [normalizeRow, hrstat]
    · simp [normalizeRow, hrnone, strOfOpt]
  have hzs := (curate_ok_iff.mp hout).2.2.2.2.2
  rw [hzs] at hc
  unfold zeroStage at hc
  rw [hrec, hstat] at hc
  simp only [Bool.and_self, if_true] at hc
  obtain ⟨p, _, hpc⟩ := List.mem_map.mp hc
  by_cases hmem : strOfOpt p.receipt_id ∈ chargebackSet t
  · rw [if_pos hmem] at hpc
    rw [← hpc]
  · rw [if_neg hmem] at hpc
    exfalso
    apply hmem
    rw [hpc, hcnone]
    exact hnan

unseal List.merge List.mergeSort in
/-- Witness for C10: one success purchase with a missing receipt id and one
chargeback row with a missing receipt id; the curated row is zeroed. -/
theorem missing_receipt_cross_match_witness :
    exPtCb.hasReceiptId = true ∧ exPtCb.hasStatus = true
      ∧ (∃ r ∈ exPtCb.rows, lowerStr r.status = "chargeback" ∧ r.receipt_id = none)
      ∧ curate exPtCb = .ok [exCuratedCb]
      ∧ (∀ c ∈ [exCuratedCb], c.receipt_id = none → c.revenue_usd = 0) := by
  refine ⟨rfl, rfl, ⟨⟨"af2", "x", "refund", 5, "B", "chargeback", none⟩, by decide, by decide, rfl⟩, ?_, ?_⟩
  · decide
  · exact missing_receipt_cross_match exPtCb rfl rfl
      ⟨⟨"af2", "x", "refund", 5, "B", "chargeback", none⟩, by decide, by decide, rfl⟩
      [exCuratedCb] (by decide)

theorem dedupStage_pos {t : PurchasesTable} {r : CuratedRow}
    (h : r ∈ dedupStage (filteredRows t)) : 0 < r.revenue_usd :=
  filteredRows_pos (mem_of_mem_dedupStage h)

/-- C5: chargeback zeroing removes no curated row and changes no field other
than `revenue_usd`: the curated output has one row per deduplicated row, all
non-revenue fields are untouched, and the revenue is zero exactly when the
row's receipt id string is in the chargeback set built from the original
unfiltered raw batch (and unchanged otherwise). -/
theorem chargeback_zero_frame (t : PurchasesTable)
    (hrec : t.hasReceiptId = true) (hstat : t.hasStatus = true)
    (out : List CuratedRow) (hout : curate t = .ok out) :
    out.length = (dedupStage (filteredRows t)).length
    ∧ ∀ i (hi : i < (dedupStage (filteredRows t)).length) (ho : i < out.length),
        ((out.get ⟨i, ho⟩).appsflyer_id
            = ((dedupStage (filteredRows t)).get ⟨i, hi⟩).appsflyer_id
          ∧ (out.get ⟨i, ho⟩).event_time_utc
            = ((dedupStage (filteredRows t)).get ⟨i, hi⟩).event_time_utc
          ∧ (out.get ⟨i, ho⟩).event_name
            = ((dedupStage (filteredRows t)).get ⟨i, hi⟩).event_name
          ∧ (out.get ⟨i, ho⟩).campaign
            = ((dedupStage (filteredRows t)).get ⟨i, hi⟩).campaign
          ∧ (out.get ⟨i, ho⟩).status
            = ((dedupStage (filteredRows t)).get ⟨i, hi⟩).status
          ∧ (out.get ⟨i, ho⟩).receipt_id
            = ((dedupStage (filteredRows t)).get ⟨i, hi⟩).receipt_id
          ∧ (out.get ⟨i, ho⟩).campaign_norm
            = ((dedupStage (filteredRows t)).get ⟨i, hi⟩).campaign_norm)
        ∧ ((out.get ⟨i, ho⟩).revenue_usd = 0
            ↔ strOfOpt ((dedupStage (filteredRows t)).get ⟨i, hi⟩).receipt_id
                ∈ chargebackSet t)
        ∧ (strOfOpt ((dedupStage (filteredRows t)).get ⟨i, hi⟩).receipt_id
              ∉ chargebackSet t →
            (out.get ⟨i, ho⟩).revenue_usd
              = ((dedupStage (filteredRows t)).get ⟨i, hi⟩).revenue_usd) := by
  have hzs := (curate_ok_iff.mp hout).2.2.2.2.2
  unfold zeroStage at hzs
  rw [hrec, hstat] at hzs
  simp only [Bool.and_self, if_true] at hzs
  subst hzs
  refine ⟨List.length_map _ _, ?_⟩
  intro i hi ho
  have hget : ((dedupStage (filteredRows t)).map fun r =>
      if strOfOpt r.receipt_id ∈ chargebackSet t then { r with revenue_usd := 0 } else r).get
        ⟨i, ho⟩
      = (fun r => if strOfOpt r.receipt_id ∈ chargebackSet t then
          { r with revenue_usd := 0 } else r) ((dedupStage (filteredRows t)).get ⟨i, hi⟩) :=
    List.get_map ..
  set p := (dedupStage (filteredRows t)).get ⟨i, hi⟩ with hp
  have hpos : 0 < p.revenue_usd := dedupStage_pos (by rw [hp]; exact List.get_mem _ _ _)
  rw [hget]
  by_cases hmem : strOfOpt p.receipt_id ∈ chargebackSet t
  · simp only [if_pos hmem]
    simp [hmem]
  · simp only [if_neg hmem]
    simp [hmem, hpos.ne']

unseal List.merge List.mergeSort in
/-- Witness for C5 at the concrete chargeback batch `exPtCb`. -/
theorem chargeback_zero_frame_witness :
    exPtCb.hasReceiptId = true ∧ exPtCb.hasStatus = true
      ∧ curate exPtCb = Except.ok [exCuratedCb]
      ∧ ([exCuratedCb] : List CuratedRow).length
          = (dedupStage (filteredRows exPtCb)).length :=
  ⟨rfl, rfl, by decide, (chargeback_zero_frame exPtCb rfl rfl [exCuratedCb] (by decide)).1⟩

/-- C9: the pipeline is deterministic — two runs over identical input files
produce identical artifacts, in content and order: `runPipeline` is a pure
function of the four input tables, so equal inputs give equal `RunResult`s
(artifact list, curated table, reconciliation report, ROAS tables, anomaly
list and ARPDAU list included). -/
theorem runPipeline_deterministic (i j : Inputs) (h : i = j) :
    runPipeline i = runPipeline j := by
  rw [h]

/-- Witness for C9 at a concrete, fully populated input. -/
theorem runPipeline_deterministic_witness :
    exInputs = exInputs ∧ runPipeline exInputs = runPipeline exInputs :=
  ⟨rfl, runPipeline_deterministic exInputs exInputs rfl⟩

/-- C1 counterexample: with two curated purchases at 08:00 and 08:01 and one
confirmed record at 08:00:30 sharing the identity, both curated records are
matched and both claim the same confirmed index 0 (the script never excludes
consumed confirmed rows from the nearest-match search), so a confirmed
record is claimed by two curated records, the match count is 2 and no
`confirmed_only` record is produced. -/
theorem confirmed_reused_counterexample :
    (reconcileStage
        [⟨"af_001", "2025-10-20T08:00:00Z", "purchase", 10, "A", "success", none, "A"⟩,
          ⟨"af_001", "2025-10-20T08:01:00Z", "purchase", 10, "A", "success", none, "A"⟩]
        ⟨true, true, true, [⟨"af_001", "2025-10-20T08:00:30Z", 10⟩]⟩).toOption.map
        (fun rep => (claimedOf rep.details, rep.summary.matched, rep.summary.confirmed_only))
      = some ([0, 0], 2, 0) := by
  decide

theorem mem_dedupKeysAux_id :
    ∀ (seen l : List String) (x : String),
      x ∈ dedupKeysAux id seen l ↔ (x ∈ l ∧ x ∉ seen) := by
  intro seen l
  induction l generalizing seen with
  | nil => intro x; simp [dedupKeysAux]
  | cons y ys ih =>
    intro x
    simp only [dedupKeysAux, id]
    by_cases hy : y ∈ seen
    · simp only [if_pos hy, ih]
      constructor
      · rintro ⟨h1, h2⟩
        exact ⟨List.mem_cons_of_mem _ h1, h2⟩
      · rintro ⟨h1, h2⟩
        rcases List.mem_cons.mp h1 with h | h
        · exact absurd (h ▸ hy) h2
        · exact ⟨h, h2⟩
    · simp only [if_neg hy, List.mem_cons, ih, List.mem_cons]
      constructor
      · rintro (rfl | ⟨h1, h2⟩)
        · exact ⟨Or.inl rfl, hy⟩
        · exact ⟨Or.inr h1, fun hx => h2 (Or.inr hx)⟩
      · rintro ⟨rfl | h1, h2⟩
        · exact Or.inl rfl
        · by_cases hxy : x = y
          · exact Or.inl hxy
          · exact Or.inr ⟨h1, fun hc => hc.elim hxy h2⟩

theorem mem_uniqueStrs {l : List String} {x : String} :
    x ∈ uniqueStrs l ↔ x ∈ l := by
  unfold uniqueStrs dedupKeys
  rw [mem_dedupKeysAux_id]
  simp

theorem nodup_dedupKeysAux_id :
    ∀ (seen l : List String), (dedupKeysAux id seen l).Nodup := by
  intro seen l
  induction l generalizing seen with
  | nil => simp [dedupKeysAux]
  | cons y ys ih =>
    simp only [dedupKeysAux, id]
    by_cases hy : y ∈ seen
    · simpa [hy] using ih seen
    · simp only [if_neg hy, List.nodup_cons]
      refine ⟨fun hmem => ?_, ih _⟩
      exact ((mem_dedupKeysAux_id _ _ _).mp hmem).2 (List.mem_cons_self _ _)

theorem nodup_uniqueStrs (l : List String) : (uniqueStrs l).Nodup :=
  nodup_dedupKeysAux_id [] l

theorem length_eq_sum_filter_groups {α : Type} (f : α → String) :
    ∀ (ks : List String) (l : List α), ks.Nodup → (∀ x ∈ l, f x ∈ ks) →
      (ks.map fun k => (l.filter fun x => decide (f x = k)).length).sum = l.length := by
  intro ks
  induction ks with
  | nil =>
    intro l _ hall
    have : l = [] := by
      cases l with
      | nil => rfl
      | cons x xs => exact absurd (hall x (List.mem_cons_self _ _)) (by simp)
    simp [this]
  | cons k ks ih =>
    intro l hnd hall
    have hnd2 := (List.nodup_cons.mp hnd).2
    have hk : k ∉ ks := (List.nodup_cons.mp hnd).1
    have hsplit : (l.filter fun x => decide (f x = k)).length
        + (l.filter fun x => !decide (f x = k)).length = l.length := by
      rw [← List.countP_eq_length_filter, ← List.countP_eq_length_filter]
      have h1 := List.length_eq_countP_add_countP (fun x => decide (f x = k)) l
      have h2 : List.countP (fun a => decide ¬(decide (f a = k) = true)) l
          = List.countP (fun x => !decide (f x = k)) l :=
        List.countP_congr (by intro x _; simp)
      omega
    have hrest : ∀ k2 ∈ ks, (l.filter fun x => decide (f x = k2))
        = ((l.filter fun x => !decide (f x = k)).filter fun x => decide (f x = k2)) := by
      intro k2 hk2
      rw [List.filter_filter]
      apply List.filter_congr
      intro x _
      by_cases hx : f x = k2
      · have hne : k2 ≠ k := fun h => hk (h ▸ hk2)
        simp [hx, hne]
      · simp [hx]
    have hcov : ∀ x ∈ (l.filter fun x => !decide (f x = k)), f x ∈ ks := by
      intro x hx
      have h1 := List.mem_filter.mp hx
      have h2 := hall x h1.1
      rcases List.mem_cons.mp h2 with h | h
      · exfalso; revert h1; simp [h]
      · exact h
    have := ih (l.filter fun x => !decide (f x = k)) hnd2 hcov
    simp only [List.map_cons, List.sum_cons]
    calc (l.filter fun x => decide (f x = k)).length
          + (ks.map fun k2 => (l.filter fun x => decide (f x = k2)).length).sum
        = (l.filter fun x => decide (f x = k)).length
          + (ks.map fun k2 => ((l.filter fun x => !decide (f x = k)).filter
              fun x => decide (f x = k2)).length).sum := by
          congr 1
          apply congrArg
          exact List.map_congr_left fun k2 hk2 => by rw [hrest k2 hk2]
      _ = (l.filter fun x => decide (f x = k)).length
          + (l.filter fun x => !decide (f x = k)).length := by rw [this]
      _ = l.length := hsplit

theorem curatedDetails_length (cur : List CuratedRow) (conf : List ConfirmedRow) :
    (curatedDetails cur conf).length = cur.length := by
  unfold curatedDetails
  rw [List.length_flatMap]
  have hmap : ∀ af, (List.length ∘ fun af =>
      (cur.filter fun p => decide (p.appsflyer_id = af)).map fun p =>
        classify p (conf.enum.filter fun ic => decide (ic.2.appsflyer_id = af))) af
      = (cur.filter fun p => decide (p.appsflyer_id = af)).length := by
    intro af
    simp
  rw [List.map_congr_left fun af _ => hmap af]
  exact length_eq_sum_filter_groups (fun p => p.appsflyer_id)
    (uniqueStrs (cur.map (·.appsflyer_id))) cur
    (nodup_uniqueStrs _)
    (fun x hx => mem_uniqueStrs.mpr (List.mem_map.mpr ⟨x, hx, rfl⟩))

theorem classify_not_confirmedOnly (p : CuratedRow) (cg : List (ℕ × ConfirmedRow)) :
    (classify p cg).isConfirmedOnly = false := by
  rcases hp : parseTs p.event_time_utc with _ | tp
  · simp [classify, hp, Detail.isConfirmedOnly]
  · rcases hmin : minFirst (candList tp cg) with _ | ⟨i, ct, d⟩
    · simp [classify, hp, hmin, Detail.isConfirmedOnly]
    · by_cases hd : 600 < d <;>
        simp [classify, hp, hmin, hd, Detail.isConfirmedOnly]

theorem classify_matched_or_afOnly (p : CuratedRow) (cg : List (ℕ × ConfirmedRow)) :
    (classify p cg).isMatched = true ∨ (classify p cg).isAfOnly = true := by
  rcases hp : parseTs p.event_time_utc with _ | tp
  · right; simp [classify, hp, Detail.isAfOnly]
  · rcases hmin : minFirst (candList tp cg) with _ | ⟨i, ct, d⟩
    · right; simp [classify, hp, hmin, Detail.isAfOnly]
    · by_cases hd : 600 < d
      · right; simp [classify, hp, hmin, hd, Detail.isAfOnly]
      · left; simp [classify, hp, hmin, hd, Detail.isMatched]

theorem detail_type_exclusive (d : Detail) :
    (d.isMatched = true → d.isAfOnly = false ∧ d.isConfirmedOnly = false)
      ∧ (d.isAfOnly = true → d.isMatched = false ∧ d.isConfirmedOnly = false)
      ∧ (d.isConfirmedOnly = true → d.isMatched = false ∧ d.isAfOnly = false) := by
  cases d <;> simp [Detail.isMatched, Detail.isAfOnly, Detail.isConfirmedOnly]

theorem matched_add_afOnly_length :
    ∀ (dets : List Detail), (∀ d ∈ dets, d.isMatched = true ∨ d.isAfOnly = true) →
      (dets.filter Detail.isMatched).length + (dets.filter Detail.isAfOnly).length
        = dets.length := by
  intro dets
  induction dets with
  | nil => simp
  | cons d ds ih =>
    intro hall
    have hd := hall d (List.mem_cons_self _ _)
    have hds := fun x hx => hall x (List.mem_cons_of_mem _ hx)
    rcases hd with h | h
    · have hno : d.isAfOnly = false := ((detail_type_exclusive d).1 h).1
      simp only [List.filter_cons, h, hno, if_true, if_false, List.length_cons]
      have := ih hds
      simp only [Bool.false_eq_true, if_false]
      omega
    · have hno : d.isMatched = false := ((detail_type_exclusive d).2.1 h).1
      simp only [List.filter_cons, h, hno, if_true, List.length_cons]
      have := ih hds
      simp only [Bool.false_eq_true, if_false]
      omega

theorem minFirst_eq_none :
    ∀ {l : List (ℕ × String × ℕ)}, minFirst l = none ↔ l = [] := by
  intro l
  cases l with
  | nil => simp [minFirst]
  | cons y ys =>
    rcases hys : minFirst ys with _ | z
    · simp [minFirst, hys]
    · by_cases hz : z.2.2 < y.2.2 <;> simp [minFirst, hys, hz]

theorem minFirst_mem :
    ∀ {l : List (ℕ × String × ℕ)} {x}, minFirst l = some x → x ∈ l := by
  intro l
  induction l with
  | nil => intro x h; simp [minFirst] at h
  | cons y ys ih =>
    intro x h
    rcases hys : minFirst ys with _ | z
    · simp only [minFirst, hys] at h
      exact List.mem_cons.mpr (Or.inl (Option.some.inj h).symm)
    · simp only [minFirst, hys] at h
      by_cases hz : z.2.2 < y.2.2
      · rw [if_pos hz] at h
        exact List.mem_cons_of_mem _ (ih (hys.trans (congrArg some (Option.some.inj h))))
      · rw [if_neg hz] at h
        exact List.mem_cons.mpr (Or.inl (Option.some.inj h).symm)

theorem minFirst_le :
    ∀ {l : List (ℕ × String × ℕ)} {x}, minFirst l = some x →
      ∀ y ∈ l, x.2.2 ≤ y.2.2 := by
  intro l
  induction l with
  | nil => intro x h; simp [minFirst] at h
  | cons z zs ih =>
    intro x h y hy
    rcases hzs : minFirst zs with _ | m
    · simp only [minFirst, hzs] at h
      have hx : x = z := (Option.some.inj h).symm
      have hnil : zs = [] := minFirst_eq_none.mp hzs
      subst hnil
      rcases List.mem_singleton.mp hy with rfl
      exact hx ▸ le_refl _
    · simp only [minFirst, hzs] at h
      by_cases hm : m.2.2 < z.2.2
      · rw [if_pos hm] at h
        have hx : x = m := (Option.some.inj h).symm
        subst hx
        rcases List.mem_cons.mp hy with rfl | hy2
        · exact le_of_lt hm
        · exact ih hzs y hy2
      · rw [if_neg hm] at h
        have hx : x = z := (Option.some.inj h).symm
        subst hx
        rcases List.mem_cons.mp hy with rfl | hy2
        · exact le_refl _
        · exact le_trans (not_lt.mp hm) (ih hzs y hy2)

theorem filter_enum_not_mem_length {α : Type} (rows : List α) (cl : List ℕ)
    (hlt : ∀ i ∈ cl, i < rows.length) :
    (rows.enum.filter fun ic => decide (ic.1 ∉ cl)).length
      = rows.length - cl.dedup.length := by
  have h1 : (rows.enum.filter fun ic => decide (ic.1 ∉ cl)).length
      = List.countP (fun i => decide (i ∉ cl)) (List.range rows.length) := by
    rw [← List.enum_map_fst rows, List.countP_map,
      ← List.countP_eq_length_filter]
    rfl
  have h2 : List.countP (fun i => decide (i ∈ cl)) (List.range rows.length)
      = cl.dedup.length := by
    rw [List.countP_eq_length_filter]
    have hnd : ((List.range rows.length).filter fun i => decide (i ∈ cl)).Nodup :=
      (List.nodup_range _).filter _
    have hfin : ((List.range rows.length).filter fun i => decide (i ∈ cl)).toFinset
        = cl.toFinset := by
      ext i
      simp only [List.mem_toFinset, List.mem_filter, List.mem_range, decide_eq_true_eq]
      exact ⟨fun h => h.2, fun h => ⟨hlt i h, h⟩⟩
    calc ((List.range rows.length).filter fun i => decide (i ∈ cl)).length
        = ((List.range rows.length).filter fun i => decide (i ∈ cl)).toFinset.card :=
          (List.toFinset_card_of_nodup hnd).symm
      _ = cl.toFinset.card := by rw [hfin]
      _ = cl.dedup.length := List.card_toFinset cl
  have h3 := List.length_eq_countP_add_countP (fun i => decide (i ∈ cl))
    (List.range rows.length)
  rw [List.length_range] at h3
  have h4 : List.countP (fun a => decide ¬(decide (a ∈ cl) = true))
      (List.range rows.length)
      = List.countP (fun i => decide (i ∉ cl)) (List.range rows.length) := by
    apply List.countP_congr
    intro x _
    simp
  rw [h1]
  omega

theorem claimed_lt_length (cur : List CuratedRow) (conf : List ConfirmedRow) :
    ∀ i ∈ claimedOf (curatedDetails cur conf), i < conf.length := by
  intro i hi
  obtain ⟨d, hd, hdi⟩ := List.mem_filterMap.mp hi
  obtain ⟨af, _, hdmem⟩ := List.mem_flatMap.mp hd
  obtain ⟨p, _, hpd⟩ := List.mem_map.mp hdmem
  cases hcls : classify p (conf.enum.filter fun ic => decide (ic.2.appsflyer_id = af)) with
  | afOnly a t r => rw [← hpd, hcls] at hdi; simp [Detail.claimedIdx] at hdi
  | confirmedOnly a t r => rw [← hpd, hcls] at hdi; simp [Detail.claimedIdx] at hdi
  | matched a t ct r j =>
    rw [← hpd, hcls] at hdi
    simp only [Detail.claimedIdx, Option.some.injEq] at hdi
    subst hdi
    rcases hp : parseTs p.event_time_utc with _ | tp
    · simp [classify, hp] at hcls
    · rcases hmin : minFirst (candList tp (conf.enum.filter fun ic =>
          decide (ic.2.appsflyer_id = af))) with _ | ⟨i2, ct2, d2⟩
      · simp [classify, hp, hmin] at hcls
      · by_cases hd2 : 600 < d2
        · simp [classify, hp, hmin, hd2] at hcls
        · simp only [classify, hp, hmin, hd2, if_false, Detail.matched.injEq] at hcls
          obtain ⟨-, -, -, -, hji⟩ := hcls
          have hxmem := minFirst_mem hmin
          unfold candList at hxmem
          obtain ⟨ic, hicmem, hmapeq⟩ := List.mem_filterMap.mp hxmem
          rcases hpc : parseTs ic.2.event_time_utc with _ | tc
          · rw [hpc] at hmapeq; simp at hmapeq
          · rw [hpc] at hmapeq
            have hmapeq2 : (ic.1, ic.2.event_time_utc, (tc.secs - tp.secs).natAbs)
                = (i2, ct2, d2) := by simpa using hmapeq
            have hic1 : ic.1 = i2 := congrArg (fun z => z.1) hmapeq2
            have hlt := List.fst_lt_of_mem_enum ((List.mem_filter.mp hicmem).1)
            omega

theorem curatedDetails_mem_shape {cur : List CuratedRow} {conf : List ConfirmedRow} :
    ∀ d ∈ curatedDetails cur conf, ∃ p cg, d = classify p cg := by
  intro d hd
  obtain ⟨af, _, hdmem⟩ := List.mem_flatMap.mp hd
  obtain ⟨p, _, hpd⟩ := List.mem_map.mp hdmem
  exact ⟨p, _, hpd.symm⟩

theorem claimedOf_append (a b : List Detail) :
    claimedOf (a ++ b) = claimedOf a ++ claimedOf b :=
  List.filterMap_append a b Detail.claimedIdx

theorem claimedOf_confirmedOnly_map (l : List (ℕ × ConfirmedRow)) :
    claimedOf (l.map fun ic =>
      Detail.confirmedOnly ic.2.appsflyer_id ic.2.event_time_utc ic.2.revenue_usd) = [] := by
  induction l with
  | nil => rfl
  | cons x xs ih => simp [claimedOf, Detail.claimedIdx, List.filterMap_cons, ih]

theorem filter_confirmedOnly_map_eq (l : List (ℕ × ConfirmedRow)) :
    ((l.map fun ic => Detail.confirmedOnly ic.2.appsflyer_id ic.2.event_time_utc
        ic.2.revenue_usd).filter Detail.isConfirmedOnly).length = l.length := by
  induction l with
  | nil => rfl
  | cons x xs ih => simpa [Detail.isConfirmedOnly, List.filter_cons] using ih

/-- C1, amended: every curated purchase still yields exactly one
curated-side record (matched plus source-only counts equal the curated row
count) and every claimed index is a real confirmed index, but a confirmed
record is not protected from being claimed again: the `confirmed_only`
records are exactly the confirmed rows claimed by no curated record, so
their count is the confirmed count minus the number of DISTINCT claimed
indices, while the multiset of claims may repeat an index. -/
theorem reconciliation_partition_amended (cur : List CuratedRow)
    (ct : ConfirmedTable) (rep : ReconReport)
    (hok : reconcileStage cur ct = .ok rep) :
    rep.summary.matched + rep.summary.af_only = cur.length
      ∧ rep.summary.confirmed_only
          = ct.rows.length - (claimedOf rep.details).dedup.length
      ∧ ∀ i ∈ claimedOf rep.details, i < ct.rows.length := by
  unfold reconcileStage at hok
  cases hET : ct.hasEventTime with
  | false => rw [hET] at hok; simp at hok
  | true =>
  cases hAF : ct.hasAppsflyer with
  | false => rw [hET, hAF] at hok; simp at hok
  | true =>
  rw [hET, hAF] at hok
  simp only [Bool.not_true, Bool.false_eq_true, if_false] at hok
  by_cases hg : (!ct.hasRevenue && !(ct.rows.enum.filter fun ic =>
      decide (ic.1 ∉ claimedOf (curatedDetails cur ct.rows))).isEmpty) = true
  · rw [if_pos hg] at hok; simp at hok
  · rw [if_neg hg] at hok
    have hrep := (Except.ok.inj hok).symm
    subst hrep
    set dets := curatedDetails cur ct.rows with hdets
    set unmatched := ct.rows.enum.filter fun ic =>
      decide (ic.1 ∉ claimedOf dets) with hunm
    set cmap := unmatched.map fun ic =>
      Detail.confirmedOnly ic.2.appsflyer_id ic.2.event_time_utc ic.2.revenue_usd
      with hcmap
    have hdetshape : ∀ d ∈ dets, d.isMatched = true ∨ d.isAfOnly = true := by
      intro d hd
      obtain ⟨p, cg, rfl⟩ := curatedDetails_mem_shape d hd
      exact classify_matched_or_afOnly p cg
    have hclaimall : claimedOf (dets ++ cmap) = claimedOf dets := by
      rw [claimedOf_append, hcmap, claimedOf_confirmedOnly_map, List.append_nil]
    refine ⟨?_, ?_, ?_⟩
    · have hm : ((dets ++ cmap).filter Detail.isMatched).length
          = (dets.filter Detail.isMatched).length := by
        rw [List.filter_append]
        have : cmap.filter Detail.isMatched = [] := by
          apply List.filter_eq_nil_iff.mpr
          intro d hd
          obtain ⟨ic, _, rfl⟩ := List.mem_map.mp hd
          simp [Detail.isMatched]
        rw [this, List.append_nil]
      have ha : ((dets ++ cmap).filter Detail.isAfOnly).length
          = (dets.filter Detail.isAfOnly).length := by
        rw [List.filter_append]
        have : cmap.filter Detail.isAfOnly = [] := by
          apply List.filter_eq_nil_iff.mpr
          intro d hd
          obtain ⟨ic, _, rfl⟩ := List.mem_map.mp hd
          simp [Detail.isAfOnly]
        rw [this, List.append_nil]
      simp only [hm, ha]
      rw [matched_add_afOnly_length dets hdetshape, hdets]
      exact curatedDetails_length cur ct.rows
    · have hc : ((dets ++ cmap).filter Detail.isConfirmedOnly).length
          = unmatched.length := by
        rw [List.filter_append]
        have hd0 : dets.filter Detail.isConfirmedOnly = [] := by
          apply List.filter_eq_nil_iff.mpr
          intro d hd
          obtain ⟨p, cg, rfl⟩ := curatedDetails_mem_shape d hd
          simp [classify_not_confirmedOnly]
        rw [hd0, List.nil_append, hcmap, filter_confirmedOnly_map_eq]
      simp only [hc, hclaimall, hunm]
      exact filter_enum_not_mem_length ct.rows (claimedOf dets)
        (hdets ▸ claimed_lt_length cur ct.rows)
    · simp only [hclaimall, hdets]
      exact claimed_lt_length cur ct.rows

theorem charListLt_irrefl : ∀ l : List Char, charListLt l l = false := by
  intro l
  induction l with
  | nil => rfl
  | cons a as ih => simp [charListLt, ih]

theorem charListLt_trans :
    ∀ (a b c : List Char), charListLt a b = true → charListLt b c = true →
      charListLt a c = true := by
  intro a
  induction a with
  | nil =>
    intro b c hab hbc
    cases c with
    | nil => cases b <;> simp [charListLt] at hbc
    | cons c1 cs => simp [charListLt]
  | cons a1 as ih =>
    intro b c hab hbc
    cases b with
    | nil => simp [charListLt] at hab
    | cons b1 bs =>
      cases c with
      | nil => simp [charListLt] at hbc
      | cons c1 cs =>
        simp only [charListLt, Bool.or_eq_true, Bool.and_eq_true,
          decide_eq_true_eq] at hab hbc ⊢
        rcases hab with h1 | ⟨he1, h1⟩
        · rcases hbc with h2 | ⟨he2, h2⟩
          · exact Or.inl (lt_trans h1 h2)
          · exact Or.inl (by rw [← he2]; exact h1)
        · rcases hbc with h2 | ⟨he2, h2⟩
          · exact Or.inl (by rw [he1]; exact h2)
          · exact Or.inr ⟨he1.trans he2, ih bs cs h1 h2⟩

theorem charListLt_trichotomy :
    ∀ (a b : List Char), charListLt a b = true ∨ a = b ∨ charListLt b a = true := by
  intro a
  induction a with
  | nil =>
    intro b
    cases b with
    | nil => exact Or.inr (Or.inl rfl)
    | cons b1 bs => exact Or.inl (by simp [charListLt])
  | cons a1 as ih =>
    intro b
    cases b with
    | nil => exact Or.inr (Or.inr (by simp [charListLt]))
    | cons b1 bs =>
      rcases lt_trichotomy a1 b1 with h | h | h
      · exact Or.inl (by simp [charListLt, h])
      · rcases ih bs with h2 | h2 | h2
        · exact Or.inl (by simp [charListLt, h, h2])
        · exact Or.inr (Or.inl (by rw [h, h2]))
        · exact Or.inr (Or.inr (by simp [charListLt, h.symm, h2]))
      · exact Or.inr (Or.inr (by simp [charListLt, h]))

theorem strLe_refl (s : String) : strLe s s = true := by
  simp [strLe, strLt, charListLt_irrefl]

theorem strLe_trans {a b c : String} (hab : strLe a b = true)
    (hbc : strLe b c = true) : strLe a c = true := by
  simp only [strLe, strLt, Bool.not_eq_true'] at hab hbc ⊢
  by_contra hca
  simp only [Bool.not_eq_false] at hca
  rcases charListLt_trichotomy a.toList b.toList with h | h | h
  · rw [charListLt_trans _ _ _ hca h] at hbc
    exact Bool.true_eq_false.mp hbc
  · rw [h] at hca
    rw [hca] at hbc
    exact Bool.true_eq_false.mp hbc
  · rw [h] at hab
    exact Bool.true_eq_false.mp hab

theorem strLe_trans3 :
    ∀ (a b c : String), strLe a b = true → strLe b c = true → strLe a c = true :=
  fun _ _ _ hab hbc => strLe_trans hab hbc

theorem strLe_total (a b : String) : (strLe a b || strLe b a) = true := by
  simp only [strLe, strLt, Bool.or_eq_true, Bool.not_eq_true']
  by_contra h
  push_neg at h
  simp only [Bool.not_eq_false] at h
  have := charListLt_trans _ _ _ h.1 h.2
  rw [charListLt_irrefl] at this
  exact absurd this (by simp)

theorem strLe_antisymm {a b : String} (hab : strLe a b = true)
    (hba : strLe b a = true) : a = b := by
  simp only [strLe, strLt, Bool.not_eq_true'] at hab hba
  rcases charListLt_trichotomy a.toList b.toList with h | h | h
  · rw [h] at hba; exact absurd hba (by simp)
  · exact String.ext h
  · rw [h] at hab; exact absurd hab (by simp)

theorem tsLe_trans :
    ∀ (a b c : CuratedRow), tsLe a b = true → tsLe b c = true → tsLe a c = true :=
  fun _ _ _ hab hbc => strLe_trans hab hbc

theorem tsLe_total : ∀ (a b : CuratedRow), (tsLe a b || tsLe b a) = true :=
  fun a b => strLe_total a.event_time_utc b.event_time_utc

theorem dedupKeysAux_filter {α : Type} (key : α → String) (k : String) :
    ∀ (seen : List String) (l : List α),
      (dedupKeysAux key seen l).filter (fun x => decide (key x = k))
        = if k ∈ seen then [] else (l.filter fun x => decide (key x = k)).take 1 := by
  intro seen l
  induction l generalizing seen with
  | nil => simp [dedupKeysAux]
  | cons x xs ih =>
    simp only [dedupKeysAux]
    by_cases hx : key x ∈ seen
    · rw [if_pos hx, ih]
      by_cases hk : k ∈ seen
      · simp [hk]
      · rw [if_neg hk, if_neg hk, List.filter_cons]
        have hxk : ¬ key x = k := fun h => hk (h ▸ hx)
        simp [hxk]
    · rw [if_neg hx]
      by_cases hxk : key x = k
      · have hkseen : k ∉ seen := fun h => hx (hxk ▸ h)
        rw [List.filter_cons, if_pos (by simp [hxk]), ih, if_pos (by simp [hxk]),
          if_neg hkseen, List.filter_cons, if_pos (by simp [hxk])]
        simp
      · rw [List.filter_cons, if_neg (by simp [hxk]), ih]
        have hmem : (k ∈ key x :: seen) ↔ k ∈ seen := by
          simp only [List.mem_cons]
          constructor
          · rintro (rfl | h)
            · exact absurd rfl hxk
            · exact h
          · exact Or.inr
        by_cases hk : k ∈ seen
        · rw [if_pos (hmem.mpr hk), if_pos hk]
        · rw [if_neg (fun h => hk (hmem.mp h)), if_neg hk, List.filter_cons,
            if_neg (by simp [hxk])]

/-- C4 counterexample: the two rows of `exDup` share composite key `exKey`
and the same timestamp string, so the reversed list is also an admissible
result of the line-85 timestamp sort (whose default quicksort leaves the
order of tied rows unspecified); deduplicating that admissible order keeps
the second input row (campaign "B"), while the claimed stable-sort tie rule
demands the first input row (campaign "A"), a different row. -/
theorem dedup_unstable_tie_counterexample :
    IsTsSorted exDup.reverse exDup
      ∧ (dedupKeys composite exDup.reverse).filter (fun r => decide (composite r = exKey))
        = [⟨"af1", "2025-10-20T08:00:00Z", "purchase", 10, "B", "success", none, "B"⟩]
      ∧ (exDup.filter (fun r => decide (composite r = exKey))).head?
        = some ⟨"af1", "2025-10-20T08:00:00Z", "purchase", 10, "A", "success", none, "A"⟩
      ∧ (⟨"af1", "2025-10-20T08:00:00Z", "purchase", 10, "B", "success", none, "B"⟩
          : CuratedRow)
        ≠ ⟨"af1", "2025-10-20T08:00:00Z", "purchase", 10, "A", "success", none, "A"⟩ := by
  decide

/-- C4 (amended): under any timestamp-sorted arrangement of the filtered
rows -- the guarantee the unstable default sort gives -- each nonempty
composite-key class keeps exactly one representative, a class member whose
timestamp string is minimal in the class, so rows with distinct composite
keys are all retained; in particular this holds of the executable
`dedupStage`, whose stable merge sort is one admissible arrangement. Which
tied class member survives is the sort's unspecified tie order, not
necessarily the first in input order. -/
theorem dedup_retains_one_minimal (l s : List CuratedRow) (k : String)
    (hs : IsTsSorted s l)
    (hne : l.filter (fun r => decide (composite r = k)) ≠ []) :
    (∃ a, (dedupKeys composite s).filter (fun r => decide (composite r = k)) = [a]
      ∧ a ∈ l.filter (fun r => decide (composite r = k))
      ∧ ∀ b ∈ l.filter (fun r => decide (composite r = k)),
          strLe a.event_time_utc b.event_time_utc = true)
    ∧ (∃ a, (dedupStage l).filter (fun r => decide (composite r = k)) = [a]
      ∧ a ∈ l.filter (fun r => decide (composite r = k))
      ∧ ∀ b ∈ l.filter (fun r => decide (composite r = k)),
          strLe a.event_time_utc b.event_time_utc = true) := by
  have key : ∀ t : List CuratedRow, t.Perm l →
      List.Pairwise (fun x y => tsLe x y = true) t →
      ∃ a, (dedupKeys composite t).filter (fun r => decide (composite r = k)) = [a]
        ∧ a ∈ l.filter (fun r => decide (composite r = k))
        ∧ ∀ b ∈ l.filter (fun r => decide (composite r = k)),
            strLe a.event_time_utc b.event_time_utc = true := by
    intro t hperm hsort
    have hfperm := hperm.filter (fun r => decide (composite r = k))
    have hfne : t.filter (fun r => decide (composite r = k)) ≠ [] := by
      intro h0
      apply hne
      have := hfperm.length_eq
      rw [h0] at this
      exact List.length_eq_zero.mp this.symm
    rcases hsf : t.filter (fun r => decide (composite r = k)) with _ | ⟨a, u⟩
    · exact absurd hsf hfne
    refine ⟨a, ?_, ?_, ?_⟩
    · show (dedupKeysAux composite [] t).filter (fun r => decide (composite r = k)) = [a]
      rw [dedupKeysAux_filter composite k [] t]
      simp only [List.not_mem_nil, if_false, hsf, List.take_succ_cons, List.take_zero]
    · exact hfperm.mem_iff.mp (hsf ▸ List.mem_cons_self a u)
    · intro b hb
      have hpair : List.Pairwise (fun x y => tsLe x y = true)
          (t.filter (fun r => decide (composite r = k))) :=
        List.Pairwise.sublist (List.filter_sublist _) hsort
      rw [hsf] at hpair
      have hb2 : b ∈ a :: u := hsf ▸ hfperm.mem_iff.mpr hb
      rcases List.mem_cons.mp hb2 with rfl | hb3
      · exact strLe_refl _
      · exact (List.pairwise_cons.mp hpair).1 b hb3
  obtain ⟨hperm, hsort⟩ := hs
  exact ⟨key s hperm hsort,
    key (l.mergeSort tsLe) (List.mergeSort_perm l tsLe)
      (List.sorted_mergeSort tsLe_trans tsLe_total l)⟩

/-- Witness for C4 (amended) at a two-row duplicate class, taking the input
order itself as the admissible sorted arrangement. -/
theorem dedup_retains_one_minimal_witness :
    IsTsSorted exDup exDup
      ∧ exDup.filter (fun r => decide (composite r = exKey)) ≠ []
      ∧ ((∃ a, (dedupKeys composite exDup).filter (fun r => decide (composite r = exKey))
            = [a]
          ∧ a ∈ exDup.filter (fun r => decide (composite r = exKey))
          ∧ ∀ b ∈ exDup.filter (fun r => decide (composite r = exKey)),
              strLe a.event_time_utc b.event_time_utc = true)
        ∧ (∃ a, (dedupStage exDup).filter (fun r => decide (composite r = exKey)) = [a]
          ∧ a ∈ exDup.filter (fun r => decide (composite r = exKey))
          ∧ ∀ b ∈ exDup.filter (fun r => decide (composite r = exKey)),
              strLe a.event_time_utc b.event_time_utc = true)) :=
  ⟨by decide, by decide, dedup_retains_one_minimal exDup exDup exKey (by decide) (by decide)⟩

theorem mem_sortedDistinct {l : List String} {x : String} :
    x ∈ sortedDistinct l ↔ x ∈ l := by
  unfold sortedDistinct
  rw [List.mem_mergeSort]
  exact mem_uniqueStrs

theorem dauTable_pos {srows : List SessionRow} {x : String × ℕ}
    (hx : x ∈ dauTable srows) : 0 < x.2 := by
  unfold dauTable at hx
  obtain ⟨d, hd, rfl⟩ := List.mem_map.mp hx
  have hd2 : d ∈ (sessionDates srows).map (·.1) := mem_sortedDistinct.mp hd
  obtain ⟨e, he, hde⟩ := List.mem_map.mp hd2
  have hee : e ∈ (sessionDates srows).filter fun z => decide (z.1 = d) :=
    List.mem_filter.mpr ⟨he, by simp [hde]⟩
  have : e.2 ∈ (((sessionDates srows).filter fun z => decide (z.1 = d)).map (·.2)).dedup :=
    List.mem_dedup.mpr (List.mem_map.mpr ⟨e, hee, rfl⟩)
  exact List.length_pos.mpr (List.ne_nil_of_mem this)

/-- C7, amended: for every row of the cost-joined revenue aggregate, the
roas is `revenue / cost` whenever a cost value is present and nonzero
(negative costs included — the ratio is then negative, not zero), and 0
when the cost is missing (division by null is 0, not an error); for every
ARPDAU row, the dau denominator is a positive distinct-user count when
present (arpdau = revenue / dau) and a missing dau gives arpdau 0. -/
theorem roas_division_amended :
    (∀ (rev : List RevRow) (cost : List CostRow), ∀ row ∈ roasTable rev cost,
      (row.ad_cost_usd = none → row.roas = .num 0)
        ∧ ∀ c, row.ad_cost_usd = some c → c ≠ 0 →
            row.roas = .num (row.revenue_usd / c))
      ∧ ∀ (srows : List SessionRow) (rev : List RevRow), ∀ row ∈ arpdauTable srows rev,
          (row.dau = none → row.arpdau = .num 0)
            ∧ ∀ n, row.dau = some n → 0 < n ∧ row.arpdau = .num (row.revenue / n) := by
  constructor
  · intro rev cost row hrow
    unfold roasTable at hrow
    obtain ⟨r, hr, hmem⟩ := List.mem_flatMap.mp hrow
    rcases hf : cost.filter fun c =>
        decide (c.date = r.date ∧ normCostCampaign c.campaign = r.campaign)
      with _ | ⟨c0, cs⟩
    · rw [hf] at hmem
      rcases List.mem_singleton.mp hmem with rfl
      refine ⟨fun _ => rfl, ?_⟩
      intro c hc
      simp at hc
    · rw [hf] at hmem
      obtain ⟨c, _, rfl⟩ := List.mem_map.mp hmem
      constructor
      · intro hnone
        simp only at hnone
        simp [pdiv, hnone, fillna0]
      · intro cv hcv hcvne
        simp only at hcv
        simp [pdiv, hcv, hcvne, fillna0]
  · intro srows rev row hrow
    unfold arpdauTable at hrow
    obtain ⟨r, hr, hmem⟩ := List.mem_flatMap.mp hrow
    rcases hf : (dauTable srows).filter fun x => decide (x.1 = r.date)
      with _ | ⟨x0, xs⟩
    · rw [hf] at hmem
      rcases List.mem_singleton.mp hmem with rfl
      refine ⟨fun _ => rfl, ?_⟩
      intro n hn
      simp at hn
    · rw [hf] at hmem
      obtain ⟨x, hx, rfl⟩ := List.mem_map.mp hmem
      have hx2 : x ∈ (dauTable srows).filter fun x => decide (x.1 = r.date) := by
        rw [hf]; exact hx
      have hxdau : x ∈ dauTable srows := (List.mem_filter.mp hx2).1
      constructor
      · intro hnone
        simp at hnone
      · intro n hn
        simp only [Option.some.injEq] at hn
        subst hn
        have hpos : 0 < x.2 := dauTable_pos hxdau
        refine ⟨hpos, ?_⟩
        have hne : (x.2 : ℚ) ≠ 0 := by positivity
        simp [pdiv, hne, fillna0]

theorem nodup_sortedDistinct (l : List String) : (sortedDistinct l).Nodup :=
  (List.mergeSort_perm (dedupKeys id l) strLe).nodup_iff.mpr (nodup_uniqueStrs l)

theorem nodup_filter_eq_singleton {l : List String} (hnd : l.Nodup) (d : String) :
    l.filter (fun x => decide (x = d)) = if d ∈ l then [d] else [] := by
  induction l with
  | nil => simp
  | cons x xs ih =>
    have hnd2 := (List.nodup_cons.mp hnd).2
    have hx : x ∉ xs := (List.nodup_cons.mp hnd).1
    rw [List.filter_cons]
    by_cases hxd : x = d
    · subst hxd
      rw [if_pos (by simp), ih hnd2, if_neg hx, if_pos (List.mem_cons_self _ _)]
    · rw [if_neg (by simp [hxd]), ih hnd2]
      by_cases hd : d ∈ xs
      · rw [if_pos hd, if_pos (List.mem_cons_of_mem _ hd)]
      · have hdx : ¬ d ∈ x :: xs := by
          intro hc
          rcases List.mem_cons.mp hc with h | h
          · exact hxd h.symm
          · exact hd h
        rw [if_neg hd, if_neg hdx]

theorem dauTable_filter_cases (srows : List SessionRow) (d : String) :
    (dauTable srows).filter (fun x => decide (x.1 = d)) = [] ∨
      ∃ n, (dauTable srows).filter (fun x => decide (x.1 = d))
        = [(d, n)] := by
  unfold dauTable
  rw [List.filter_map]
  rcases hmem : decide (d ∈ sortedDistinct ((sessionDates srows).map (·.1))) with _ | _
  · left
    have hmem2 : d ∉ sortedDistinct ((sessionDates srows).map (·.1)) := of_decide_eq_false hmem
    have : (sortedDistinct ((sessionDates srows).map (·.1))).filter
        (fun x => decide (x = d)) = [] := by
      rw [nodup_filter_eq_singleton (nodup_sortedDistinct _) d, if_neg hmem2]
    rw [show ((fun x => decide (x.1 = d)) ∘ fun d =>
        (d, (((sessionDates srows).filter fun x => decide (x.1 = d)).map (·.2)).dedup.length))
      = fun x => decide (x = d) from rfl, this]
    rfl
  · right
    have hmem2 : d ∈ sortedDistinct ((sessionDates srows).map (·.1)) := of_decide_eq_true hmem
    have : (sortedDistinct ((sessionDates srows).map (·.1))).filter
        (fun x => decide (x = d)) = [d] := by
      rw [nodup_filter_eq_singleton (nodup_sortedDistinct _) d, if_pos hmem2]
    rw [show ((fun x => decide (x.1 = d)) ∘ fun d =>
        (d, (((sessionDates srows).filter fun x => decide (x.1 = d)).map (·.2)).dedup.length))
      = fun x => decide (x = d) from rfl, this]
    exact ⟨_, rfl⟩

theorem arpdauTable_eq_map (srows : List SessionRow) (rev : List RevRow) :
    arpdauTable srows rev = rev.map (addDau srows) := by
  unfold arpdauTable
  induction rev with
  | nil => rfl
  | cons r rs ih =>
    rw [List.flatMap_cons, List.map_cons, ih]
    congr 1
    rcases dauTable_filter_cases srows r.date with hf | ⟨n, hf⟩
    · rw [hf]
      unfold addDau dauOf
      rw [hf]
      rfl
    · rw [hf]
      unfold addDau dauOf
      rw [hf]
      rfl

theorem dauOf_eq_some {srows : List SessionRow} {d : String} {n : ℕ}
    (h : dauOf srows d = some n) :
    n = (((sessionDates srows).filter fun z => decide (z.1 = d)).map (·.2)).dedup.length := by
  unfold dauOf at h
  rcases hf : (dauTable srows).filter fun x => decide (x.1 = d) with _ | ⟨x, xs⟩
  · rw [hf] at h; exact absurd h (by simp)
  · rw [hf] at h
    have hn : x.2 = n := Option.some.inj h
    have hx2 : x ∈ (dauTable srows).filter fun x => decide (x.1 = d) := by
      rw [hf]; exact List.mem_cons_self _ _
    have hxt := List.mem_filter.mp hx2
    have hxd : x.1 = d := by simpa using hxt.2
    obtain ⟨d2, _, hmap⟩ := List.mem_map.mp (by
      unfold dauTable at hxt
      exact hxt.1)
    have hd2 : d2 = x.1 := congrArg (fun z => z.1) hmap
    have := congrArg (fun z => z.2) hmap
    simp only at this
    rw [← hn, ← this, hd2, hxd]

instance : IsAntisymm String (fun a b => strLe a b = true) :=
  ⟨fun _ _ => strLe_antisymm⟩

theorem sortedDistinct_eq_of_mem_iff {l1 l2 : List String}
    (h : ∀ x, x ∈ l1 ↔ x ∈ l2) : sortedDistinct l1 = sortedDistinct l2 := by
  have hs1 : List.Sorted (fun a b => strLe a b = true) (sortedDistinct l1) :=
    List.sorted_mergeSort strLe_trans3 strLe_total _
  have hs2 : List.Sorted (fun a b => strLe a b = true) (sortedDistinct l2) :=
    List.sorted_mergeSort strLe_trans3 strLe_total _
  have hperm : (sortedDistinct l1).Perm (sortedDistinct l2) :=
    List.perm_of_nodup_nodup_toFinset_eq (nodup_sortedDistinct _)
      (nodup_sortedDistinct _) (by
        ext x
        simp only [List.mem_toFinset, mem_sortedDistinct]
        exact h x)
  exact List.eq_of_perm_of_sorted hperm hs1 hs2

theorem selectD1_congr_mem {l1 l2 : List String} (h : ∀ x, x ∈ l1 ↔ x ∈ l2) :
    selectD1 l1 = selectD1 l2 := by
  unfold selectD1
  rw [sortedDistinct_eq_of_mem_iff h]

theorem mem_roasTable_dates (rev : List RevRow) (cost : List CostRow) (d : String) :
    d ∈ (roasTable rev cost).map (·.date) ↔ d ∈ rev.map (·.date) := by
  constructor
  · intro hd
    obtain ⟨row, hrow, hde⟩ := List.mem_map.mp hd
    unfold roasTable at hrow
    obtain ⟨r, hr, hmem⟩ := List.mem_flatMap.mp hrow
    rcases hf : cost.filter fun c =>
        decide (c.date = r.date ∧ normCostCampaign c.campaign = r.campaign)
      with _ | ⟨c0, cs⟩
    · rw [hf] at hmem
      rcases List.mem_singleton.mp hmem with rfl
      exact List.mem_map.mpr ⟨r, hr, hde⟩
    · rw [hf] at hmem
      obtain ⟨c, _, rfl⟩ := List.mem_map.mp hmem
      exact List.mem_map.mpr ⟨r, hr, hde⟩
  · intro hd
    obtain ⟨r, hr, hde⟩ := List.mem_map.mp hd
    apply List.mem_map.mpr
    rcases hf : cost.filter fun c =>
        decide (c.date = r.date ∧ normCostCampaign c.campaign = r.campaign)
      with _ | ⟨c0, cs⟩
    · refine ⟨⟨r.date, r.campaign, r.revenue_usd, none,
        fillna0 (pdiv r.revenue_usd none)⟩, ?_, hde⟩
      apply List.mem_flatMap.mpr
      refine ⟨r, hr, ?_⟩
      rw [hf]
      exact List.mem_singleton.mpr rfl
    · refine ⟨⟨r.date, r.campaign, r.revenue_usd, c0.ad_cost_usd,
        fillna0 (pdiv r.revenue_usd c0.ad_cost_usd)⟩, ?_, hde⟩
      apply List.mem_flatMap.mpr
      refine ⟨r, hr, ?_⟩
      rw [hf]
      exact List.mem_map.mpr ⟨c0, List.mem_cons_self _ _, rfl⟩

/-- C8: ARPDAU keeps the (date, campaign) grain of revenue: the joined
table is exactly one row per revenue row, every row's dau is the date-only
DAU lookup (so two rows of the same date always share the dau value, which
is the distinct-user count among sessions with a parseable timestamp on
that date), and the ARPDAU D-1 date is selected by the same
second-most-recent-distinct-date rule as ROAS, computed independently over
a date set equal to the ROAS one. -/
theorem arpdau_grain_and_dau :
    (∀ (srows : List SessionRow) (rev : List RevRow),
      arpdauTable srows rev = rev.map (addDau srows)
        ∧ (∀ row ∈ arpdauTable srows rev, row.dau = dauOf srows row.date)
        ∧ (∀ r1 ∈ arpdauTable srows rev, ∀ r2 ∈ arpdauTable srows rev,
            r1.date = r2.date → r1.dau = r2.dau)
        ∧ ∀ row ∈ arpdauTable srows rev, ∀ n, row.dau = some n →
            n = (((sessionDates srows).filter fun z =>
              decide (z.1 = row.date)).map (·.2)).dedup.length)
      ∧ (∀ (st : SessionsTable) (rev : List RevRow) (ad1 : List ArpdauRow),
          arpdauStage st rev = .ok ad1 →
          arpdauTable st.rows rev ≠ [] →
          ad1 = (arpdauTable st.rows rev).filter fun r =>
            decide (r.date = (selectD1 ((arpdauTable st.rows rev).map (·.date))).getD ""))
      ∧ ∀ (srows : List SessionRow) (rev : List RevRow) (cost : List CostRow),
          selectD1 ((arpdauTable srows rev).map (·.date)) = selectD1 (rev.map (·.date))
            ∧ selectD1 ((roasTable rev cost).map (·.date))
              = selectD1 (rev.map (·.date)) := by
  refine ⟨?_, ?_, ?_⟩
  · intro srows rev
    have hmapform := arpdauTable_eq_map srows rev
    have hdau : ∀ row ∈ arpdauTable srows rev, row.dau = dauOf srows row.date := by
      intro row hrow
      rw [hmapform] at hrow
      obtain ⟨r, _, rfl⟩ := List.mem_map.mp hrow
      rfl
    refine ⟨hmapform, hdau, ?_, ?_⟩
    · intro r1 h1 r2 h2 hdate
      rw [hdau r1 h1, hdau r2 h2, hdate]
    · intro row hrow n hn
      rw [hdau row hrow] at hn
      exact dauOf_eq_some hn
  · intro st rev ad1 hok hne
    unfold arpdauStage at hok
    cases hTs : st.hasTs with
    | false => rw [hTs] at hok; simp at hok
    | true =>
    cases hUs : st.hasUser with
    | false => rw [hTs, hUs] at hok; simp at hok
    | true =>
    rw [hTs, hUs] at hok
    simp only [Bool.not_true, Bool.false_eq_true, if_false] at hok
    rw [if_neg (by simpa using hne)] at hok
    exact (Except.ok.inj hok).symm
  · intro srows rev cost
    constructor
    · rw [arpdauTable_eq_map, List.map_map]
      rfl
    · exact selectD1_congr_mem (mem_roasTable_dates rev cost)

unseal Rat.mul Rat.inv List.merge List.mergeSort in
/-- Witness for the amended C7: revenue 20 against cost 100 divides to 1/5
(a fifth, the claim's 0.2 example), and the two-user date gives dau 2 with
arpdau 20/2. -/
theorem roas_division_amended_witness :
    (⟨"2025-10-20", "C", 20, some 100, PVal.num (1 / 5)⟩ : RoasRow)
        ∈ roasTable exRev20 exCost100
      ∧ (100 : ℚ) ≠ 0
      ∧ RoasRow.roas ⟨"2025-10-20", "C", 20, some 100, PVal.num (1 / 5)⟩
          = PVal.num ((20 : ℚ) / 100)
      ∧ (⟨"2025-10-20", "C", 20, some 2, PVal.num 10⟩ : ArpdauRow)
          ∈ arpdauTable exSess2 exRev20
      ∧ 0 < 2
      ∧ ArpdauRow.arpdau ⟨"2025-10-20", "C", 20, some 2, PVal.num 10⟩
          = PVal.num ((20 : ℚ) / 2) :=
  ⟨by decide, by norm_num,
    (roas_division_amended.1 exRev20 exCost100
        ⟨"2025-10-20", "C", 20, some 100, PVal.num (1 / 5)⟩ (by decide)).2
      100 rfl (by norm_num),
    by decide, by norm_num,
    ((roas_division_amended.2 exSess2 exRev20
        ⟨"2025-10-20", "C", 20, some 2, PVal.num 10⟩ (by decide)).2 2 rfl).2⟩

unseal Rat.mul Rat.inv List.merge List.mergeSort in
/-- Witness for C8: two users on the single revenue date give dau 2 and the
D-1 filter keeps the only row. -/
theorem arpdau_grain_and_dau_witness :
    arpdauStage ⟨true, true, exSess2⟩ exRev20
        = .ok [⟨"2025-10-20", "C", 20, some 2, PVal.num 10⟩]
      ∧ arpdauTable exSess2 exRev20 ≠ []
      ∧ ([⟨"2025-10-20", "C", 20, some 2, PVal.num 10⟩] : List ArpdauRow)
          = (arpdauTable exSess2 exRev20).filter fun r =>
              decide (r.date
                = (selectD1 ((arpdauTable exSess2 exRev20).map (·.date))).getD "") :=
  ⟨by decide, by decide,
    arpdau_grain_and_dau.2.1 ⟨true, true, exSess2⟩ exRev20
      [⟨"2025-10-20", "C", 20, some 2, PVal.num 10⟩] (by decide) (by decide)⟩

theorem mem_candList {tp : Ts} {cg : List (ℕ × ConfirmedRow)} {x : ℕ × String × ℕ} :
    x ∈ candList tp cg ↔ ∃ ic ∈ cg, ∃ tc, parseTs ic.2.event_time_utc = some tc
      ∧ x = (ic.1, ic.2.event_time_utc, (tc.secs - tp.secs).natAbs) := by
  unfold candList
  rw [List.mem_filterMap]
  constructor
  · rintro ⟨ic, hic, hmap⟩
    rcases hpc : parseTs ic.2.event_time_utc with _ | tc
    · rw [hpc] at hmap; simp at hmap
    · rw [hpc] at hmap
      have h2 : (ic.1, ic.2.event_time_utc, (tc.secs - tp.secs).natAbs) = x := by
        simpa using hmap
      exact ⟨ic, hic, tc, hpc, h2.symm⟩
  · rintro ⟨ic, hic, tc, hpc, rfl⟩
    exact ⟨ic, hic, by rw [hpc]; rfl⟩

theorem reconcileStage_ok_details {cur : List CuratedRow} {ct : ConfirmedTable}
    {rep : ReconReport} (hok : reconcileStage cur ct = .ok rep) :
    rep.details = curatedDetails cur ct.rows
      ++ (ct.rows.enum.filter fun ic =>
          decide (ic.1 ∉ claimedOf (curatedDetails cur ct.rows))).map
        fun ic => Detail.confirmedOnly ic.2.appsflyer_id ic.2.event_time_utc
          ic.2.revenue_usd := by
  unfold reconcileStage at hok
  cases hET : ct.hasEventTime with
  | false => rw [hET] at hok; simp at hok
  | true =>
  cases hAF : ct.hasAppsflyer with
  | false => rw [hET, hAF] at hok; simp at hok
  | true =>
  rw [hET, hAF] at hok
  simp only [Bool.not_true, Bool.false_eq_true, if_false] at hok
  by_cases hg : (!ct.hasRevenue && !(ct.rows.enum.filter fun ic =>
      decide (ic.1 ∉ claimedOf (curatedDetails cur ct.rows))).isEmpty) = true
  · rw [if_pos hg] at hok; simp at hok
  · rw [if_neg hg] at hok
    have := (Except.ok.inj hok).symm
    rw [this]

theorem reconcileStage_ok_claimed {cur : List CuratedRow} {ct : ConfirmedTable}
    {rep : ReconReport} (hok : reconcileStage cur ct = .ok rep) :
    claimedOf rep.details = claimedOf (curatedDetails cur ct.rows) := by
  rw [reconcileStage_ok_details hok, claimedOf_append, claimedOf_confirmedOnly_map,
    List.append_nil]

/-- C3: for a curated purchase with a parseable timestamp, the record is
`matched` iff some same-identity confirmed row has a parseable timestamp
within 10 minutes; a matched record's partner is a nearest such confirmed
row (distance minimal over all parseable same-identity candidates); and in
a successful reconciliation every unconsumed confirmed row contributes a
`confirmed_only` record to the details. -/
theorem nearest_match_classification :
    (∀ (p : CuratedRow) (conf : List ConfirmedRow) (tp : Ts),
      parseTs p.event_time_utc = some tp →
      ((classify p (conf.enum.filter fun ic =>
            decide (ic.2.appsflyer_id = p.appsflyer_id))).isMatched = true
          ↔ ∃ ic ∈ conf.enum.filter fun ic =>
                decide (ic.2.appsflyer_id = p.appsflyer_id),
              ∃ tc, parseTs ic.2.event_time_utc = some tc
                ∧ (tc.secs - tp.secs).natAbs ≤ 600)
        ∧ ∀ a t ctime rev i,
            classify p (conf.enum.filter fun ic =>
              decide (ic.2.appsflyer_id = p.appsflyer_id)) = .matched a t ctime rev i →
            ∃ c tc, (i, c) ∈ (conf.enum.filter fun ic =>
                decide (ic.2.appsflyer_id = p.appsflyer_id))
              ∧ parseTs c.event_time_utc = some tc
              ∧ ctime = c.event_time_utc
              ∧ ∀ jc ∈ (conf.enum.filter fun ic =>
                    decide (ic.2.appsflyer_id = p.appsflyer_id)),
                  ∀ tj, parseTs jc.2.event_time_utc = some tj →
                    (tc.secs - tp.secs).natAbs ≤ (tj.secs - tp.secs).natAbs)
    ∧ ∀ (cur : List CuratedRow) (ct : ConfirmedTable) (rep : ReconReport),
        reconcileStage cur ct = .ok rep →
        ∀ ic ∈ ct.rows.enum, ic.1 ∉ claimedOf rep.details →
          Detail.confirmedOnly ic.2.appsflyer_id ic.2.event_time_utc ic.2.revenue_usd
            ∈ rep.details := by
  constructor
  · intro p conf tp hp
    constructor
    · constructor
      · intro hm
        rcases hmin : minFirst (candList tp (conf.enum.filter fun ic =>
            decide (ic.2.appsflyer_id = p.appsflyer_id))) with _ | ⟨i2, ct2, d2⟩
        · simp [classify, hp, hmin, Detail.isMatched] at hm
        · by_cases hd2 : 600 < d2
          · simp [classify, hp, hmin, hd2, Detail.isMatched] at hm
          · have hxm := minFirst_mem hmin
            obtain ⟨ic, hic, tc, hpc, heq⟩ := mem_candList.mp hxm
            refine ⟨ic, hic, tc, hpc, ?_⟩
            have hd : d2 = (tc.secs - tp.secs).natAbs :=
              congrArg (fun z => z.2.2) heq
            omega
      · rintro ⟨ic, hic, tc, hpc, hle⟩
        have hmem : (ic.1, ic.2.event_time_utc, (tc.secs - tp.secs).natAbs)
            ∈ candList tp (conf.enum.filter fun ic =>
              decide (ic.2.appsflyer_id = p.appsflyer_id)) :=
          mem_candList.mpr ⟨ic, hic, tc, hpc, rfl⟩
        rcases hmin : minFirst (candList tp (conf.enum.filter fun ic =>
            decide (ic.2.appsflyer_id = p.appsflyer_id))) with _ | ⟨i2, ct2, d2⟩
        · rw [minFirst_eq_none.mp hmin] at hmem
          simp at hmem
        · have hle2 := minFirst_le hmin _ hmem
          simp only at hle2
          have hd2 : ¬ 600 < d2 := by omega
          simp [classify, hp, hmin, hd2, Detail.isMatched]
    · intro a t ctime rev i hcls
      rcases hmin : minFirst (candList tp (conf.enum.filter fun ic =>
          decide (ic.2.appsflyer_id = p.appsflyer_id))) with _ | ⟨i2, ct2, d2⟩
      · simp [classify, hp, hmin] at hcls
      · by_cases hd2 : 600 < d2
        · simp [classify, hp, hmin, hd2] at hcls
        · simp only [classify, hp, hmin, hd2, if_false, Detail.matched.injEq] at hcls
          obtain ⟨-, -, hct, -, hi⟩ := hcls
          have hxm := minFirst_mem hmin
          obtain ⟨ic, hic, tc, hpc, heq⟩ := mem_candList.mp hxm
          have h1 : i2 = ic.1 := congrArg (fun z => z.1) heq
          have h2 : ct2 = ic.2.event_time_utc := congrArg (fun z => z.2.1) heq
          have h3 : d2 = (tc.secs - tp.secs).natAbs := congrArg (fun z => z.2.2) heq
          have hi1 : ic.1 = i := by omega
          refine ⟨ic.2, tc, ?_, hpc, hct.symm.trans h2, ?_⟩
          · have hic2 : (i, ic.2) = ic := by rw [← hi1]
            exact hic2 ▸ hic
          · intro jc hjc tj hptj
            have hjmem : (jc.1, jc.2.event_time_utc, (tj.secs - tp.secs).natAbs)
                ∈ candList tp (conf.enum.filter fun ic =>
                  decide (ic.2.appsflyer_id = p.appsflyer_id)) :=
              mem_candList.mpr ⟨jc, hjc, tj, hptj, rfl⟩
            have := minFirst_le hmin _ hjmem
            simp only at this
            omega
  · intro cur ct rep hok ic hic hnot
    rw [reconcileStage_ok_details hok]
    refine List.mem_append_right _ (List.mem_map.mpr ⟨ic, List.mem_filter.mpr ⟨hic, ?_⟩, rfl⟩)
    rw [reconcileStage_ok_claimed hok] at hnot
    simpa using hnot

/-- Witness for C3: the 30-second candidate makes `exP` matched, and the
lone unclaimed confirmed row of `exCtSolo` yields its confirmed-only
record. -/
theorem nearest_match_classification_witness :
    parseTs exP.event_time_utc = some ⟨"2025-10-20", 1760947200⟩
      ∧ (classify exP (exConf.enum.filter fun ic =>
          decide (ic.2.appsflyer_id = exP.appsflyer_id))).isMatched = true
      ∧ reconcileStage [] exCtSolo = .ok exRepSolo
      ∧ Detail.confirmedOnly "af9" "2025-10-20T10:00:00Z" 5 ∈ exRepSolo.details := by
  refine ⟨by decide, ?_, by decide, ?_⟩
  · exact (nearest_match_classification.1 exP exConf ⟨"2025-10-20", 1760947200⟩
        (by decide)).1.mpr
      ⟨(0, ⟨"af_001", "2025-10-20T08:00:30Z", 10⟩), by decide,
        ⟨"2025-10-20", 1760947230⟩, by decide, by decide⟩
  · exact nearest_match_classification.2 [] exCtSolo exRepSolo (by decide)
      (0, ⟨"af9", "2025-10-20T10:00:00Z", 5⟩) (by decide) (by decide)

/-- Witness for the amended C1 at the double-claim input. -/
theorem reconciliation_partition_amended_witness :
    reconcileStage exCur2 exCt2 = .ok exRep
      ∧ exRep.summary.matched + exRep.summary.af_only = exCur2.length
      ∧ exRep.summary.confirmed_only
          = exCt2.rows.length - (claimedOf exRep.details).dedup.length
      ∧ ∀ i ∈ claimedOf exRep.details, i < exCt2.rows.length :=
  ⟨by decide,
    (reconciliation_partition_amended exCur2 exCt2 exRep (by decide)).1,
    (reconciliation_partition_amended exCur2 exCt2 exRep (by decide)).2.1,
    (reconciliation_partition_amended exCur2 exCt2 exRep (by decide)).2.2⟩

/-- C2, amended: a load failure (missing, empty or unparseable file) aborts
with exit 1, its distinct cause recorded, before any artifact is written; a
missing required purchases column other than `status` aborts the same way
with a distinct missing-column error and nothing written, and `status` is
never the reported missing column (it is silently tolerated); a missing
required confirmed column aborts with a distinct missing-column error, but
only after the curated artifact has been written. -/
theorem failfast_amended :
    (∀ (inp : Inputs) (e : PErr), load inp = .error e →
        runPipeline inp = ⟨1, some e, [], none, none, none, none, none⟩)
      ∧ (∀ (inp : Inputs) (pt : PurchasesTable) (ct : ConfirmedTable)
          (cost : CostsTable) (sess : SessionsTable) (e : PErr),
          load inp = .ok (pt, ct, cost, sess) → curate pt = .error e →
          runPipeline inp = ⟨1, some e, [], none, none, none, none, none⟩
            ∧ ∃ col, e = .missingColumn "purchases" col ∧ col ≠ "status")
      ∧ ∀ (inp : Inputs) (pt : PurchasesTable) (ct : ConfirmedTable)
          (cost : CostsTable) (sess : SessionsTable) (rows : List CuratedRow)
          (e : PErr),
          load inp = .ok (pt, ct, cost, sess) → curate pt = .ok rows →
          reconcileStage rows ct = .error e →
          runPipeline inp = ⟨1, some e, ["purchases_curated.csv"], some rows,
              none, none, none, none⟩
            ∧ ∃ col, e = .missingColumn "reconciliation" col := by
  refine ⟨?_, ?_, ?_⟩
  · intro inp e hload
    simp [runPipeline, hload]
  · intro inp pt ct cost sess e hload hcur
    refine ⟨by simp [runPipeline, hload, hcur], ?_⟩
    unfold curate at hcur
    cases hR : pt.hasRevenue with
    | false =>
      rw [hR] at hcur
      simp only [Bool.not_false, if_true, Except.error.injEq] at hcur
      exact ⟨"revenue_usd", hcur.symm, by decide⟩
    | true =>
    cases hC : pt.hasCampaign with
    | false =>
      rw [hR, hC] at hcur
      simp only [Bool.not_false, Bool.not_true, Bool.false_eq_true, if_false, if_true,
        Except.error.injEq] at hcur
      exact ⟨"campaign", hcur.symm, by decide⟩
    | true =>
    cases hA : pt.hasAppsflyer with
    | false =>
      rw [hR, hC, hA] at hcur
      simp only [Bool.not_false, Bool.not_true, Bool.false_eq_true, if_false, if_true,
        Except.error.injEq] at hcur
      exact ⟨"appsflyer_id", hcur.symm, by decide⟩
    | true =>
    cases hE : pt.hasEventTime with
    | false =>
      rw [hR, hC, hA, hE] at hcur
      simp only [Bool.not_false, Bool.not_true, Bool.false_eq_true, if_false, if_true,
        Except.error.injEq] at hcur
      exact ⟨"event_time_utc", hcur.symm, by decide⟩
    | true =>
    cases hN : pt.hasEventName with
    | false =>
      rw [hR, hC, hA, hE, hN] at hcur
      simp only [Bool.not_false, Bool.not_true, Bool.false_eq_true, if_false, if_true,
        Except.error.injEq] at hcur
      exact ⟨"event_name", hcur.symm, by decide⟩
    | true =>
      rw [hR, hC, hA, hE, hN] at hcur
      simp at hcur
  · intro inp pt ct cost sess rows e hload hcur hrec
    refine ⟨by simp [runPipeline, hload, hcur, hrec], ?_⟩
    unfold reconcileStage at hrec
    cases hET : ct.hasEventTime with
    | false =>
      rw [hET] at hrec
      simp only [Bool.not_false, if_true, Except.error.injEq] at hrec
      exact ⟨"event_time_utc", hrec.symm⟩
    | true =>
    cases hAF : ct.hasAppsflyer with
    | false =>
      rw [hET, hAF] at hrec
      simp only [Bool.not_false, Bool.not_true, Bool.false_eq_true, if_false, if_true,
        Except.error.injEq] at hrec
      exact ⟨"appsflyer_id", hrec.symm⟩
    | true =>
      rw [hET, hAF] at hrec
      simp only [Bool.not_true, Bool.false_eq_true, if_false] at hrec
      by_cases hg : (!ct.hasRevenue && !(ct.rows.enum.filter fun ic =>
          decide (ic.1 ∉ claimedOf (curatedDetails rows ct.rows))).isEmpty) = true
      · rw [if_pos hg] at hrec
        simp only [Except.error.injEq] at hrec
        exact ⟨"revenue_usd", hrec.symm⟩
      · rw [if_neg hg] at hrec
        exact absurd hrec (by simp)

theorem perCampaign_emit {hist tblD1 : List RoasRow} {d1 camp : String} {r : RoasRow}
    (hhist : (hist.filter fun x => decide (x.campaign = camp)) ≠ [])
    (hd1 : tblD1.filter (fun x => decide (x.campaign = camp)) = [r]) :
    perCampaign hist tblD1 d1 camp
      = .ok (some ⟨d1, camp, r.roas, avg7Of hist camp,
          anomalyFlag r.roas (avg7Of hist camp)⟩) := by
  unfold perCampaign
  rw [if_neg (by simpa using hhist), hd1]

theorem perCampaign_ok_some {hist tblD1 : List RoasRow} {d1 camp : String}
    {a : Anomaly} (h : perCampaign hist tblD1 d1 camp = .ok (some a)) :
    a.date = d1 ∧ a.campaign = camp ∧ a.avg7 = avg7Of hist a.campaign
      ∧ a.anomaly = anomalyFlag a.roas_d1 a.avg7
      ∧ ∃ r, tblD1.filter (fun x => decide (x.campaign = camp)) = [r]
          ∧ a.roas_d1 = r.roas := by
  unfold perCampaign at h
  by_cases hh : (hist.filter fun x => decide (x.campaign = camp)).isEmpty = true
  · rw [if_pos hh] at h
    simp at h
  · rw [if_neg hh] at h
    rcases hf : tblD1.filter (fun x => decide (x.campaign = camp)) with _ | ⟨r, rest⟩
    · rw [hf] at h
      simp at h
    · rcases rest with _ | ⟨r2, rest2⟩
      · rw [hf] at h
        simp only [Except.ok.injEq, Option.some.injEq] at h
        subst h
        exact ⟨rfl, rfl, rfl, rfl, r, hf, rfl⟩
      · rw [hf] at h
        simp at h

theorem anomalyLoop_ok_mem {hist tblD1 : List RoasRow} {d1 : String} :
    ∀ {camps : List String} {l : List Anomaly},
      anomalyLoop hist tblD1 d1 camps = .ok l →
      ∀ a, a ∈ l ↔ ∃ camp ∈ camps, perCampaign hist tblD1 d1 camp = .ok (some a) := by
  intro camps
  induction camps with
  | nil =>
    intro l h a
    simp only [anomalyLoop, Except.ok.injEq] at h
    subst h
    simp
  | cons c cs ih =>
    intro l h a
    rcases hpc : perCampaign hist tblD1 d1 c with e | o
    · simp only [anomalyLoop, hpc] at h
      exact absurd h (by simp)
    · rcases o with _ | a0
      · simp only [anomalyLoop, hpc] at h
        rw [ih h a]
        constructor
        · rintro ⟨camp, hcamp, hp⟩
          exact ⟨camp, List.mem_cons_of_mem _ hcamp, hp⟩
        · rintro ⟨camp, hcamp, hp⟩
          rcases List.mem_cons.mp hcamp with rfl | h2
          · rw [hpc] at hp
            simp at hp
          · exact ⟨camp, h2, hp⟩
      · simp only [anomalyLoop, hpc] at h
        rcases hrest : anomalyLoop hist tblD1 d1 cs with e2 | l2
        · rw [hrest] at h
          simp [Except.map] at h
        · rw [hrest] at h
          have hl : l = a0 :: l2 := by
            simpa [Except.map] using h.symm
          subst hl
          constructor
          · intro hmem
            rcases List.mem_cons.mp hmem with rfl | h2
            · exact ⟨c, List.mem_cons_self _ _, hpc⟩
            · obtain ⟨camp, hcamp, hp⟩ := (ih hrest a).mp h2
              exact ⟨camp, List.mem_cons_of_mem _ hcamp, hp⟩
          · rintro ⟨camp, hcamp, hp⟩
            rcases List.mem_cons.mp hcamp with rfl | h2
            · rw [hpc] at hp
              have ha : a0 = a := by simpa using hp
              exact ha ▸ List.mem_cons_self _ _
            · exact List.mem_cons_of_mem _ ((ih hrest a).mpr ⟨camp, h2, hp⟩)

theorem roasStage_ok {cur : List CuratedRow} {ct : CostsTable}
    {tblD1 : List RoasRow} {anoms : List Anomaly}
    (h : roasStage cur ct = .ok (tblD1, anoms)) (hne : roasFull cur ct ≠ []) :
    tblD1 = (roasFull cur ct).filter (fun r => decide (r.date = roasD1Date cur ct))
      ∧ anomalyLoop (roasHist cur ct) tblD1 (roasD1Date cur ct)
          (uniqueStrs ((roasFull cur ct).map (·.campaign))) = .ok anoms := by
  unfold roasStage at h
  cases hC : ct.hasCampaign with
  | false => rw [hC] at h; simp at h
  | true =>
  cases hD : ct.hasDate with
  | false => rw [hC, hD] at h; simp at h
  | true =>
  cases hK : ct.hasCost with
  | false => rw [hC, hD, hK] at h; simp at h
  | true =>
  rw [hC, hD, hK] at h
  simp only [Bool.not_true, Bool.false_eq_true, if_false] at h
  rw [if_neg (by simpa [roasFull] using hne)] at h
  rcases hal : anomalyLoop
      ((roasTable (revDaily cur) ct.rows).filter fun r =>
        strLe r.date ((selectD1 ((roasTable (revDaily cur) ct.rows).map (·.date))).getD ""))
      ((roasTable (revDaily cur) ct.rows).filter fun r =>
        decide (r.date = (selectD1 ((roasTable (revDaily cur) ct.rows).map (·.date))).getD ""))
      ((selectD1 ((roasTable (revDaily cur) ct.rows).map (·.date))).getD "")
      (uniqueStrs ((roasTable (revDaily cur) ct.rows).map (·.campaign)))
    with e | l2
  · rw [hal] at h
    simp [Except.map] at h
  · rw [hal] at h
    have h2 : tblD1 = (roasTable (revDaily cur) ct.rows).filter
          (fun r => decide (r.date
            = (selectD1 ((roasTable (revDaily cur) ct.rows).map (·.date))).getD ""))
        ∧ l2 = anoms := by
      have := h.symm
      simp only [Except.map, Except.ok.injEq, Prod.mk.injEq] at this
      exact ⟨this.1, this.2.symm⟩
    refine ⟨h2.1, ?_⟩
    rw [show roasHist cur ct = (roasTable (revDaily cur) ct.rows).filter fun r =>
        strLe r.date ((selectD1 ((roasTable (revDaily cur) ct.rows).map (·.date))).getD "")
      from rfl, h2.1]
    rw [show roasD1Date cur ct
        = (selectD1 ((roasTable (revDaily cur) ct.rows).map (·.date))).getD "" from rfl]
    rw [show roasFull cur ct = roasTable (revDaily cur) ct.rows from rfl]
    rw [hal, h2.2]

theorem anomalyFlag_true_iff (v w : PVal) :
    anomalyFlag v w = true ↔ (pgt0 w = true ∧ plt v (phalf w) = true) := by
  unfold anomalyFlag
  by_cases h : pgt0 w = true
  · simp [h]
  · simp [h]

theorem anomalyFlag_false_of (v w : PVal) (h : pgt0 w = false) :
    anomalyFlag v w = false := by
  unfold anomalyFlag
  simp [h]

/-- C6: in a non-empty ROAS run, every anomaly record is dated at D-1 (the
second-most-recent distinct date, or the only one), its avg7 is the trailing
mean over the rows of the last up-to-7 distinct dates at or before D-1 for
its campaign, its flag is true iff avg7 > 0 and roas_d1 < 0.5 × avg7 (so
always false when avg7 ≤ 0), and its roas_d1 is the roas of the unique D-1
row of its campaign; conversely every campaign with history at or before
D-1 and a unique D-1 row produces an anomaly record. -/
theorem roas_anomaly_characterization (cur : List CuratedRow) (ct : CostsTable)
    (tblD1 : List RoasRow) (anoms : List Anomaly)
    (hok : roasStage cur ct = .ok (tblD1, anoms)) (hne : roasFull cur ct ≠ []) :
    (∀ a ∈ anoms,
        a.date = roasD1Date cur ct
          ∧ a.avg7 = avg7Of (roasHist cur ct) a.campaign
          ∧ (a.anomaly = true ↔ pgt0 a.avg7 = true ∧ plt a.roas_d1 (phalf a.avg7) = true)
          ∧ (pgt0 a.avg7 = false → a.anomaly = false)
          ∧ ∃ r, tblD1.filter (fun x => decide (x.campaign = a.campaign)) = [r]
              ∧ a.roas_d1 = r.roas)
      ∧ ∀ camp ∈ (roasFull cur ct).map (·.campaign),
          ((roasHist cur ct).filter fun x => decide (x.campaign = camp)) ≠ [] →
          (∃ r, tblD1.filter (fun x => decide (x.campaign = camp)) = [r]) →
          ∃ a ∈ anoms, a.campaign = camp := by
  obtain ⟨htd1, hal⟩ := roasStage_ok hok hne
  constructor
  · intro a ha
    obtain ⟨camp, hcamp, hp⟩ := (anomalyLoop_ok_mem hal a).mp ha
    obtain ⟨hd, hc, havg, hflag, r, hr, hro⟩ := perCampaign_ok_some hp
    refine ⟨hd, havg, ?_, ?_, ?_⟩
    · rw [hflag]
      exact anomalyFlag_true_iff _ _
    · intro hng
      rw [hflag]
      exact anomalyFlag_false_of _ _ hng
    · refine ⟨r, ?_, hro⟩
      rw [hc]
      exact hr
  · intro camp hcamp hh hd1ex
    obtain ⟨r, hr⟩ := hd1ex
    have hp := @perCampaign_emit (roasHist cur ct) tblD1 (roasD1Date cur ct) camp r hh hr
    exact ⟨_, (anomalyLoop_ok_mem hal _).mpr ⟨camp, mem_uniqueStrs.mpr hcamp, hp⟩, rfl⟩

unseal Rat.mul Rat.inv Rat.add List.merge List.mergeSort in
/-- Witness for C6 at the two-date single-campaign run. -/
theorem roas_anomaly_characterization_witness :
    roasStage exCur3 exCost = .ok (exTbl, exAnoms)
      ∧ roasFull exCur3 exCost ≠ []
      ∧ ∀ a ∈ exAnoms, a.date = roasD1Date exCur3 exCost
          ∧ a.avg7 = avg7Of (roasHist exCur3 exCost) a.campaign
          ∧ (a.anomaly = true ↔ pgt0 a.avg7 = true ∧ plt a.roas_d1 (phalf a.avg7) = true)
          ∧ (pgt0 a.avg7 = false → a.anomaly = false)
          ∧ ∃ r, exTbl.filter (fun x => decide (x.campaign = a.campaign)) = [r]
              ∧ a.roas_d1 = r.roas :=
  ⟨by decide, by decide,
    (roas_anomaly_characterization exCur3 exCost exTbl exAnoms (by decide) (by decide)).1⟩

unseal List.merge List.mergeSort in
/-- Witness for the amended C2 at a missing file, a missing purchases
column and a missing confirmed column. -/
theorem failfast_amended_witness :
    (load exInputsMissing = .error (.fileMissing "purchases_raw.csv")
        ∧ runPipeline exInputsMissing
          = ⟨1, some (.fileMissing "purchases_raw.csv"), [], none, none, none, none, none⟩)
      ∧ (curate exPtNoCamp = .error (.missingColumn "purchases" "campaign")
        ∧ runPipeline exInputsNoCamp
          = ⟨1, some (.missingColumn "purchases" "campaign"), [],
              none, none, none, none, none⟩)
      ∧ reconcileStage [] (⟨true, false, true, []⟩ : ConfirmedTable)
          = .error (.missingColumn "reconciliation" "event_time_utc")
      ∧ runPipeline exInputsNoConfTime
          = ⟨1, some (.missingColumn "reconciliation" "event_time_utc"),
              ["purchases_curated.csv"], some [], none, none, none, none⟩ := by
  refine ⟨⟨by decide, failfast_amended.1 exInputsMissing _ (by decide)⟩,
    ⟨by decide, ?_⟩, by decide, ?_⟩
  · exact (failfast_amended.2.1 exInputsNoCamp exPtNoCamp ⟨true, true, true, []⟩
      ⟨true, true, true, []⟩ ⟨true, true, []⟩ _ (by decide) (by decide)).1
  · exact (failfast_amended.2.2 exInputsNoConfTime ⟨true, true, true, true, true, true, true, []⟩
      ⟨true, false, true, []⟩ ⟨true, true, true, []⟩ ⟨true, true, []⟩ [] _
      (by decide) (by decide) (by decide)).1

unseal List.merge List.mergeSort in
/-- C2 counterexample: a purchases file lacking the required `status` column
is silently tolerated (the run exits 0 and writes artifacts), and a
confirmed file lacking `event_time_utc` aborts only after the curated
artifact has been written — both contradict "exit non-zero before writing
any output artifact on any missing required column". -/
theorem missing_column_tolerated_counterexample :
    ((runPipeline exInputsNoStatus).exitCode = 0
        ∧ (runPipeline exInputsNoStatus).written ≠ [])
      ∧ (runPipeline exInputsNoConfTime).exitCode = 1
      ∧ (runPipeline exInputsNoConfTime).written = ["purchases_curated.csv"] := by
  decide

unseal Rat.mul Rat.inv in
/-- C7 counterexample: a present but negative ad cost gives
`roas = revenue / cost = -1/5`, not the 0 the claim requires for a
non-positive denominator. -/
theorem roas_negative_cost_counterexample :
    (roasTable [⟨"2025-10-20", "C", 20⟩] [⟨"2025-10-20", "C", some (-100)⟩]).map
        (fun r => (r.ad_cost_usd, r.roas)) = [(some (-100), PVal.num (-1 / 5))]
      ∧ PVal.num (-1 / 5) ≠ PVal.num 0 := by
  constructor
  · decide
  · intro h
    have : (-1 / 5 : ℚ) = 0 := by injection h
    norm_num at this

end ProcessData
